import Mathlib

/-!
Shallow embedding of the eBay-Wix synchronisation service
(src/ebay-wix-sync/ebay-wix-sync.service.ts) and proofs about the claims
of its specification.  JavaScript strings are modelled as lists of
characters, JavaScript `undefined` by `Option.none`, the falsiness of the
empty string by explicit emptiness tests, and the non-global
`String.prototype.replace` calls of `convertToHighRes` by first-occurrence
replacement functions.
-/

/-- Character-list model of a JavaScript string. -/
abbrev Str := List Char

/-- Insertion into a JavaScript `Set` (insertion order, first occurrence kept). -/
def jsSetAdd [DecidableEq α] (l : List α) (a : α) : List α :=
  if a ∈ l then l else l ++ [a]

/-- JavaScript `[...new Set(xs)]` : order-preserving deduplication keeping first occurrences. -/
def jsSet [DecidableEq α] (l : List α) : List α := l.foldl jsSetAdd []

/-- First occurrence of the literal pattern `pat` in a string, as the string with the
occurrence replaced by `rep`; `none` when the pattern does not occur. -/
def replLitAux (pat rep : Str) : Str → Option Str
  | [] => if pat.isPrefixOf ([] : Str) then some rep else none
  | c :: cs =>
    if pat.isPrefixOf (c :: cs) then some (rep ++ List.drop pat.length (c :: cs))
    else (replLitAux pat rep cs).map (fun t => c :: t)

/-- JavaScript `s.replace(/pat/, rep)` for a literal pattern (non-global: first
occurrence only, identity when the pattern is absent). -/
def replLit (pat rep : Str) (x : Str) : Str := (replLitAux pat rep x).getD x

/-- Whether the literal pattern `pat` occurs in a string. -/
def containsLit (pat : Str) : Str → Bool
  | [] => pat.isPrefixOf ([] : Str)
  | c :: cs => pat.isPrefixOf (c :: cs) || containsLit pat cs

/-- Head match of the regex `\/s-l\d+\.` : a `/s-l` prefix, one or more digits, then a
dot.  Returns the digit run and the remainder after the matched text. -/
def slHere : Str → Option (Str × Str)
  | a :: b :: c :: d :: rest =>
    if a = '/' ∧ b = 's' ∧ c = '-' ∧ d = 'l' then
      match rest.dropWhile Char.isDigit, rest.takeWhile Char.isDigit with
      | '.' :: tail, e :: es => some (e :: es, tail)
      | _, _ => none
    else none
  | _ => none

/-- Canonical large-size token substituted by the size rewrite. -/
def slCanon : Str := ("/s-l1600.").data

/-- First occurrence of the size pattern, replaced by the canonical token. -/
def replSlAux : Str → Option Str
  | [] => none
  | c :: cs =>
    match slHere (c :: cs) with
    | some (_, tail) => some (slCanon ++ tail)
    | none => (replSlAux cs).map (fun t => c :: t)

/-- Whether the size pattern `\/s-l\d+\.` occurs in a string. -/
def containsSl : Str → Bool
  | [] => false
  | c :: cs => (slHere (c :: cs)).isSome || containsSl cs

/-- JavaScript `s.replace(/\/s-l\d+\./, '/s-l1600.')`. -/
def replSl (x : Str) : Str := (replSlAux x).getD x

/-- Model of `convertToHighRes` of the service: guard on a falsy URL, then the three
non-global replaces of `\/thumbs\/` by a slash, of `\/s-l\d+\.` by `\/s-l1600.`
and of `-thumb\.` by a dot, in this order. -/
def convertToHighRes (url : Str) : Str :=
  if url = [] then url
  else replLit (("-thumb.").data) ((".").data)
         (replSl (replLit (("/thumbs/").data) (("/").data) url))

example : convertToHighRes (("/thumbs/a/s-l64.jpg").data) = ("/a/s-l1600.jpg").data := by decide
example : convertToHighRes (("a/x-thumb.jpg").data) = ("a/x.jpg").data := by decide
example : convertToHighRes (("/s-l64-thumb.jpg").data) = ("/s-l64.jpg").data := by decide
example :
    convertToHighRes (convertToHighRes (("/s-l64-thumb.jpg").data)) =
      ("/s-l1600.jpg").data := by decide

/-- JavaScript `a || b` for an optional string `a` (both `undefined` and the empty
string are falsy). -/
def jsOrStr (o : Option Str) (d : Str) : Str :=
  match o with
  | some s => if s = [] then d else s
  | none => d

/-- Numeric value of a digit run. -/
def natOfDigits (ds : Str) : Nat := ds.foldl (fun a c => a * 10 + (c.toNat - 48)) 0

/-- JavaScript `parseInt(s, 10)`: skip whitespace, optional sign, a leading digit
run; `NaN` (modelled as `none`) when no digits lead the remainder. -/
def parseIntJs (s : Str) : Option Int :=
  let t := s.dropWhile Char.isWhitespace
  match t with
  | '-' :: r =>
    if r.takeWhile Char.isDigit = [] then none
    else some (-(natOfDigits (r.takeWhile Char.isDigit) : Int))
  | '+' :: r =>
    if r.takeWhile Char.isDigit = [] then none
    else some ((natOfDigits (r.takeWhile Char.isDigit) : Int))
  | r =>
    if r.takeWhile Char.isDigit = [] then none
    else some ((natOfDigits (r.takeWhile Char.isDigit) : Int))

/-- Exact decimal value, `mant / 10 ^ scale`: the representation of the finite
JavaScript numbers produced by `parseFloat` on the decimal strings this service
parses. -/
structure JsNumber where
  mant : Int
  scale : Nat
deriving DecidableEq, Repr

/-- The JavaScript number `0`. -/
def jsZero : JsNumber := ⟨0, 0⟩

/-- JavaScript `parseFloat(s)` restricted to plain decimal notation (the service
only ever parses plain decimal price and quantity strings): skip whitespace,
optional sign, integer digits, optional fractional digits; `NaN` is `none`. -/
def parseFloatJs (s : Str) : Option JsNumber :=
  let t := s.dropWhile Char.isWhitespace
  let sign : Bool := match t with | '-' :: _ => true | _ => false
  let u : Str := match t with | '-' :: r => r | '+' :: r => r | r => r
  let ip := u.takeWhile Char.isDigit
  let rest := u.dropWhile Char.isDigit
  let fp : Str := match rest with | '.' :: r2 => r2.takeWhile Char.isDigit | _ => []
  if ip = [] ∧ fp = [] then none
  else
    let m : Int := (natOfDigits (ip ++ fp) : Int)
    some ⟨if sign then -m else m, fp.length⟩

/-- JavaScript `String.prototype.trim`. -/
def jsTrim (s : Str) : Str :=
  ((s.dropWhile Char.isWhitespace).reverse.dropWhile Char.isWhitespace).reverse

example : parseFloatJs (("0").data) = some jsZero := by decide
example : parseFloatJs (("12.5").data) = some ⟨125, 1⟩ := by decide
example : parseIntJs (("abc").data) = none := by decide
example : parseIntJs (("1").data) = some 1 := by decide

/-- A field that the marketplace may deliver either as a single string or as an
array of strings (`Array.isArray` dispatch in the service). -/
inductive StrOrList where
  | str (s : Str)
  | list (l : List Str)
deriving DecidableEq

/-- Truthiness of an optional string (`undefined` and `''` are falsy). -/
def truthyS : Option Str → Bool
  | some s => !s.isEmpty
  | none => false

/-- Field `currentPrice` or `convertedCurrentPrice` of a search summary. -/
structure PriceField where
  value : Option Str := none
  currencyId : Option Str := none
deriving DecidableEq

/-- Field `sellingStatus` of a search summary. -/
structure SellingStatus where
  currentPrice : Option PriceField := none
  convertedCurrentPrice : Option PriceField := none
deriving DecidableEq

/-- Field `condition` of a search summary. -/
structure ConditionField where
  conditionDisplayName : Option Str := none
deriving DecidableEq

/-- A listing summary as returned by the Finding API (the fields the service reads). -/
structure SummaryListing where
  itemId : Option Str := none
  title : Option Str := none
  galleryURL : Option Str := none
  pictureURL : Option StrOrList := none
  sellingStatus : Option SellingStatus := none
  condition : Option ConditionField := none
deriving DecidableEq

/-- One `NameValueList` entry of the detail item's `ItemSpecifics`. -/
structure NameValue where
  Name : Option (List Str) := none
  Value : Option StrOrList := none
deriving DecidableEq

/-- One `ItemSpecifics` entry (an array in the parsed XML). -/
structure SpecificsEntry where
  NameValueList : Option (List NameValue) := none
deriving DecidableEq

/-- The detail item's `ReturnPolicy` block. -/
structure ReturnPolicyInfo where
  ReturnsAccepted : Option Str := none
  ReturnsWithin : Option Str := none
  ShippingCostPaidBy : Option Str := none
  Refund : Option Str := none
deriving DecidableEq

/-- The detail item's `PictureDetails` block. -/
structure PictureDetailsInfo where
  GalleryURL : Option (List Str) := none
  PictureURL : Option StrOrList := none
deriving DecidableEq

/-- One picture set of the detail item's `Variations.Pictures`. -/
structure PicSet where
  PictureURL : Option StrOrList := none
deriving DecidableEq

/-- The detail item's `Variations` block. -/
structure VariationsInfo where
  Pictures : Option (List PicSet) := none
deriving DecidableEq

/-- The nested item record of a successful `GetSingleItem` response (the fields
the service reads; child elements are arrays in the parsed XML). -/
structure ItemDetail where
  Description : Option (List Str) := none
  PictureURL : Option StrOrList := none
  GalleryURL : Option (List Str) := none
  PictureDetails : Option PictureDetailsInfo := none
  Variations : Option VariationsInfo := none
  ItemSpecifics : Option (List SpecificsEntry) := none
  Quantity : Option (List Str) := none
  ReturnPolicy : Option (List ReturnPolicyInfo) := none
deriving DecidableEq

/-- One structured error entry of a `GetSingleItem` failure response. -/
structure EbayErr where
  ShortMessage : Option Str := none
  LongMessage : Option Str := none
  ErrorCode : Option Str := none
deriving DecidableEq

/-- The parsed `GetSingleItemResponse` (the fields the service reads). -/
structure ParsedResponse where
  Ack : Option Str := none
  Errors : Option (List EbayErr) := none
  Item : Option (List ItemDetail) := none
deriving DecidableEq

/-- The value produced by `getShoppingApiDetails` for its caller. -/
structure AdditionalDetails where
  description : Option Str := none
  images : List (Option Str) := []
  details : Option ItemDetail := none
deriving DecidableEq

/-- An enriched listing: the summary spread together with the additional details,
the merged image list and the `originalListing` backreference. -/
structure EnrichedListing where
  itemId : Option Str := none
  title : Option Str := none
  galleryURL : Option Str := none
  pictureURL : Option StrOrList := none
  sellingStatus : Option SellingStatus := none
  condition : Option ConditionField := none
  description : Option Str := none
  details : Option ItemDetail := none
  images : List Str := []
  originalListing : Option SummaryListing := none
deriving DecidableEq

/-- The `urls` array of the `Array.isArray(x) ? x : [x]` dispatch, guarded by the
truthiness of `x` itself (an empty string is falsy, an array is always truthy). -/
def urlsOf : Option StrOrList → List Str
  | some (.str p) => if p = [] then [] else [p]
  | some (.list ps) => ps
  | none => []

/-- Model of `extractBasicImages` of the service: a `Set` seeded with the upgraded gallery
URL (when truthy), then every truthy picture URL, upgraded, in order. -/
def extractBasicImages (l : SummaryListing) : List Str :=
  let s1 : List Str :=
    match l.galleryURL with
    | some g => if g = [] then [] else jsSetAdd [] (convertToHighRes g)
    | none => []
  (urlsOf l.pictureURL).foldl
    (fun acc u => if u = [] then acc else jsSetAdd acc (convertToHighRes u)) s1

/-- Model of `convertToHighRes` lifted to a possibly-`undefined` URL (the service can pass
`item.PictureDetails.GalleryURL[0]` without checking it). -/
def convertOpt : Option Str → Option Str
  | none => none
  | some u => some (convertToHighRes u)

/-- Model of `extractAllImages` of the service: top-level picture URLs, the checked
`GalleryURL[0]`, the unchecked `PictureDetails.GalleryURL[0]`, the
`PictureDetails` picture URLs and every variation picture set, each upgraded and
inserted into one `Set` in this order. -/
def extractAllImages (item : ItemDetail) : List (Option Str) :=
  let s1 : List (Option Str) :=
    (urlsOf item.PictureURL).foldl
      (fun acc u => if u = [] then acc else jsSetAdd acc (some (convertToHighRes u))) []
  let s2 : List (Option Str) :=
    match item.GalleryURL with
    | some gl =>
      match gl.head? with
      | some g => if g = [] then s1 else jsSetAdd s1 (some (convertToHighRes g))
      | none => s1
    | none => s1
  let s3 : List (Option Str) :=
    match item.PictureDetails with
    | some pd =>
      let s3a :=
        match pd.GalleryURL with
        | some gl2 => jsSetAdd s2 (convertOpt gl2.head?)
        | none => s2
      (urlsOf pd.PictureURL).foldl
        (fun acc u => if u = [] then acc else jsSetAdd acc (some (convertToHighRes u))) s3a
    | none => s2
  match item.Variations with
  | some v =>
    match v.Pictures with
    | some picSets =>
      picSets.foldl
        (fun acc ps =>
          (urlsOf ps.PictureURL).foldl
            (fun acc2 u => if u = [] then acc2 else jsSetAdd acc2 (some (convertToHighRes u)))
            acc)
        s3
    | none => s3
  | none => s3

/-- One outcome of the Shopping API HTTP call: either the request (or the XML
parse) threw, carrying the `error.response.data` body when that is a string, or
it produced a parsed response. -/
inductive HttpOutcome where
  | throwBody (body : Option Str)
  | parsed (r : ParsedResponse)

/-- The invalid-token test of the catch handler: the response body contains one
of the two known substrings. -/
def bodyHasTokenSig : Option Str → Bool
  | none => false
  | some s =>
    containsLit (("Invalid token").data) s || containsLit (("Token not available").data) s

/-- Whether a structured error entry carries one of the two token-invalid codes. -/
def isTokenErr (e : EbayErr) : Bool :=
  decide (e.ErrorCode = some (("1.32").data) ∨ e.ErrorCode = some (("1.33").data))

/-- Number of structured error entries that trigger a token refresh. -/
def countTokenErrs (errs : List EbayErr) : Nat := (errs.filter isTokenErr).length

/-- The instrumented result of `getShoppingApiDetails`: how many HTTP attempts
were made, how many token refreshes were triggered, how many structured error
entries were logged, and the value returned to the caller. -/
structure ShopOut where
  attempts : Nat
  refreshes : Nat
  logged : Nat
  value : AdditionalDetails
deriving DecidableEq

/-- Model of `getShoppingApiDetails` of the service, over a sequence of HTTP outcomes
(one per attempt) and a recursion fuel.  An `Ack = 'Failure'` response logs the
structured errors, triggers a refresh per token-invalid code, and throws an
`Error` that the function's own catch handler swallows (the synthetic error has
no response body), returning `{ images: [] }`.  A thrown request whose body
carries an invalid-token substring triggers a refresh and a full recursive
retry, with no retry counter; any other throw returns `{ images: [] }`.
`none` means the recursion exhausted its fuel (the retry loop did not finish). -/
def getShoppingApiDetails (resp : Nat → HttpOutcome) :
    Nat → Nat → Nat → Nat → Option ShopOut
  | 0, _, _, _ => none
  | fuel + 1, attempt, refreshAcc, logAcc =>
    match resp attempt with
    | .parsed r =>
      if r.Ack = some (("Failure").data) then
        match r.Errors with
        | some errs =>
          some ⟨attempt + 1, refreshAcc + countTokenErrs errs, logAcc + errs.length,
                { images := [] }⟩
        | none => some ⟨attempt + 1, refreshAcc, logAcc, { images := [] }⟩
      else
        match r.Item with
        | some (item :: _) =>
          some ⟨attempt + 1, refreshAcc, logAcc,
                { description := item.Description.bind List.head?,
                  images := extractAllImages item,
                  details := some item }⟩
        | some [] => some ⟨attempt + 1, refreshAcc, logAcc, { images := [] }⟩
        | none => some ⟨attempt + 1, refreshAcc, logAcc, { images := [] }⟩
    | .throwBody b =>
      if bodyHasTokenSig b then
        getShoppingApiDetails resp fuel (attempt + 1) (refreshAcc + 1) logAcc
      else some ⟨attempt + 1, refreshAcc, logAcc, { images := [] }⟩

/-- What a detail fetch looks like from `getDetailedListings`: either a value
was returned, or an exception escaped into the per-listing catch block. -/
inductive DetailResult where
  | thrown
  | value (ad : AdditionalDetails)
deriving DecidableEq

/-- Detail fetcher induced by an HTTP outcome sequence with the given fuel. -/
def detailsVia (resp : Nat → HttpOutcome) (fuel : Nat) : Str → DetailResult :=
  fun _ =>
    match getShoppingApiDetails resp fuel 0 0 0 with
    | some o => .value o.value
    | none => .thrown

/-- The `url => !!url` filter of the combined image array: drops `undefined` and
empty strings. -/
def jsKeepUrl : Option Str → Option Str
  | some s => if s = [] then none else some s
  | none => none

/-- The enriched record pushed on the success path: summary spread, then the
additional details, then the deduplicated and upgraded combined image list. -/
def mkSuccess (l : SummaryListing) (ad : AdditionalDetails) : EnrichedListing :=
  let basicImages := extractBasicImages l
  let combinedImages := ((basicImages.map some) ++ ad.images).filterMap jsKeepUrl
  let uniqueImages := (jsSet combinedImages).map convertToHighRes
  { itemId := l.itemId, title := l.title, galleryURL := l.galleryURL,
    pictureURL := l.pictureURL, sellingStatus := l.sellingStatus,
    condition := l.condition, description := ad.description, details := ad.details,
    images := uniqueImages, originalListing := some l }

/-- The fallback record pushed when the per-listing try block throws: summary
spread plus the basic images only. -/
def mkFallback (l : SummaryListing) : EnrichedListing :=
  { itemId := l.itemId, title := l.title, galleryURL := l.galleryURL,
    pictureURL := l.pictureURL, sellingStatus := l.sellingStatus,
    condition := l.condition, description := none, details := none,
    images := extractBasicImages l, originalListing := some l }

/-- Model of `getDetailedListings` of the service: listings without a truthy `itemId` are
skipped (`continue`); otherwise the detail fetch decides between the success
record and the fallback record. -/
def getDetailedListings (detailsFn : Str → DetailResult) :
    List SummaryListing → List EnrichedListing
  | [] => []
  | l :: ls =>
    if truthyS l.itemId then
      match detailsFn (l.itemId.getD []) with
      | .value ad => mkSuccess l ad :: getDetailedListings detailsFn ls
      | .thrown => mkFallback l :: getDetailedListings detailsFn ls
    else getDetailedListings detailsFn ls

/-- The outcome of one Finding API page call: a thrown request, or a response
whose `searchResult.item` array is present or absent. -/
inductive PageOutcome where
  | err
  | ok (item : Option (List SummaryListing))

/-- The items a page contributes to the accumulator (nothing on a thrown call or
an absent `item` array). -/
def pageItems (oracle : Nat → PageOutcome) (p : Nat) : List SummaryListing :=
  match oracle p with
  | .ok (some items) => items
  | _ => []

/-- The paging loop of `getAllEbayListings`, instrumented with the list of pages
it actually processed.  A thrown page is logged and the loop continues with the
next page; an absent `item` array stops the loop; a page shorter than the batch
size stops the loop after keeping its items; the fuel is the number of loop
iterations left before the configured page cap. -/
def fetchPages (oracle : Nat → PageOutcome) (batchSize : Nat) :
    Nat → Nat → List SummaryListing × List Nat
  | _, 0 => ([], [])
  | page, fuel + 1 =>
    match oracle page with
    | .err =>
      let r := fetchPages oracle batchSize (page + 1) fuel
      (r.1, page :: r.2)
    | .ok none => ([], [page])
    | .ok (some items) =>
      if items.length < batchSize then (items, [page])
      else
        let r := fetchPages oracle batchSize (page + 1) fuel
        (items ++ r.1, page :: r.2)

/-- The service's `BATCH_SIZE` constant (page size and enrichment batch size). -/
def BATCH_SIZE : Nat := 10

/-- The service's `MAX_PAGES` constant (page cap of the fetcher). -/
def MAX_PAGES : Nat := 1

/-- Model of `getAllEbayListings` of the service: pages 1 up to `MAX_PAGES`. -/
def getAllEbayListings (oracle : Nat → PageOutcome) : List SummaryListing :=
  (fetchPages oracle BATCH_SIZE 1 MAX_PAGES).1

/-- Template interpolation of a field that is an array of strings in the parsed
XML (`${xs}` joins an array with commas, and prints `undefined` when absent). -/
def jsShowStrList : Option (List Str) → Str
  | none => ("undefined").data
  | some l => List.intercalate ((",").data) l

/-- The `values` of one item-specifics entry:
`Array.isArray(item.Value) ? item.Value.join(', ') : item.Value`, interpolated. -/
def specValues : Option StrOrList → Str
  | some (.list l) => List.intercalate ((", ").data) l
  | some (.str s) => s
  | none => ("undefined").data

/-- Model of `formatItemSpecifics` of the service. -/
def formatItemSpecifics (nameValueList : Option (List NameValue)) : Str :=
  match nameValueList with
  | none => []
  | some l =>
    List.intercalate (("\n\n").data)
      (l.map (fun item =>
        ("**").data ++ jsShowStrList item.Name ++ ((":** ").data) ++ specValues item.Value))

/-- Model of `formatReturnPolicy` of the service: each of the four optional sub-fields is
included only when truthy, in a fixed order, joined by newlines. -/
def formatReturnPolicy (returnPolicy : Option ReturnPolicyInfo) : Str :=
  match returnPolicy with
  | none => []
  | some rp =>
    let policies : List Str :=
      (match rp.ReturnsAccepted with
       | some s => if s = [] then [] else [("Returns: ").data ++ s]
       | none => []) ++
      (match rp.ReturnsWithin with
       | some s => if s = [] then [] else [("Return Window: ").data ++ s]
       | none => []) ++
      (match rp.ShippingCostPaidBy with
       | some s => if s = [] then [] else [("Return Shipping: Paid by ").data ++ s]
       | none => []) ++
      (match rp.Refund with
       | some s => if s = [] then [] else [("Refund Type: ").data ++ s]
       | none => [])
    List.intercalate (("\n").data) policies

/-- JavaScript indexing `x?.[0]` on a string-or-array value: first element of an
array, first character of a string (as a one-character string). -/
def valueAt0 : Option StrOrList → Option Str
  | some (.list l) => l.head?
  | some (.str s) => match s with | [] => none | c :: _ => some [c]
  | none => none

/-- Model of `extractBrand` of the service: the `Value?.[0]` of the first item-specifics
entry named `Brand`, or the empty string. -/
def extractBrand (listing : EnrichedListing) : Str :=
  let nv := ((listing.details.bind ItemDetail.ItemSpecifics).bind List.head?).bind
    SpecificsEntry.NameValueList
  match nv with
  | none => []
  | some l =>
    match l.find? (fun spec => decide (spec.Name.bind List.head? = some (("Brand").data))) with
    | none => []
    | some spec => jsOrStr (valueAt0 spec.Value) []

/-- Model of `createMetaDescription` of the service. -/
def createMetaDescription (listing : EnrichedListing) : Str :=
  let condition := jsOrStr (listing.condition.bind ConditionField.conditionDisplayName) []
  let brand := extractBrand listing
  let baseDesc := jsOrStr listing.title []
  (jsTrim (condition ++ [' '] ++ brand ++ [' '] ++ baseDesc)).take 160

/-- Component `priceData` of the produced Wix product. -/
structure PriceData where
  currency : Str
  price : Option JsNumber
deriving DecidableEq

/-- Component `inventory` of the produced Wix product. -/
structure InventoryData where
  status : Str
  quantity : Option Int
  trackQuantity : Bool
deriving DecidableEq

/-- One `additionalInfoSections` entry of the produced Wix product. -/
structure InfoSection where
  title : Str
  description : Str
deriving DecidableEq

/-- The Wix product payload built by `convertToWixProduct` (SEO tags flattened
to the title children and the meta-description content). -/
structure WixProduct where
  name : Option Str
  productType : Str
  priceData : PriceData
  description : Option Str
  sku : Str
  visible : Bool
  weight : Nat
  ribbon : Str
  inventory : InventoryData
  additionalInfoSections : List InfoSection
  brand : Str
  seoTitleChildren : Str
  seoMetaContent : Str
deriving DecidableEq

/-- The maximum description length of the mapper. -/
def MAX_DESC : Nat := 8000

/-- Model of `convertToWixProduct` of the service.  The SKU is
`Math.random().toString(36).substring(7)`, a nondeterministic input, so it is a
parameter here. -/
def convertToWixProduct (sku : Str) (listing : EnrichedListing) : WixProduct :=
  { name := listing.title
    productType := ("physical").data
    priceData :=
      { currency :=
          jsOrStr ((listing.sellingStatus.bind SellingStatus.currentPrice).bind
            PriceField.currencyId) (("USD").data)
        price :=
          parseFloatJs
            (jsOrStr ((listing.sellingStatus.bind SellingStatus.currentPrice).bind
                PriceField.value)
              (jsOrStr ((listing.sellingStatus.bind SellingStatus.convertedCurrentPrice).bind
                  PriceField.value)
                (("0").data))) }
    description :=
      match listing.description with
      | some d => if MAX_DESC < d.length then some (d.take MAX_DESC) else some d
      | none => none
    sku := sku
    visible := true
    weight := 0
    ribbon := jsOrStr (listing.condition.bind ConditionField.conditionDisplayName) []
    inventory :=
      { status := ("IN_STOCK").data
        quantity :=
          parseIntJs (jsOrStr ((listing.details.bind ItemDetail.Quantity).bind List.head?)
            (("1").data))
        trackQuantity := true }
    additionalInfoSections :=
      [{ title := ("Product Details").data
         description :=
           formatItemSpecifics (((listing.details.bind ItemDetail.ItemSpecifics).bind
             List.head?).bind SpecificsEntry.NameValueList) },
       { title := ("Return Policy").data
         description :=
           formatReturnPolicy ((listing.details.bind ItemDetail.ReturnPolicy).bind List.head?) }]
    brand :=
      let b := extractBrand listing
      if b = [] then ("Unbranded").data else b
    seoTitleChildren := jsOrStr listing.title []
    seoMetaContent := createMetaDescription listing }

/-- Concrete listing whose gallery URL and detail picture URL differ raw but
coincide after the resolution upgrade. -/
def c1Summary : SummaryListing :=
  { itemId := some (("1").data), galleryURL := some (("a/thumbs/x.jpg").data) }

/-- Concrete detail item carrying the raw form of the same image. -/
def c1Item : ItemDetail := { PictureURL := some (.str (("a/x.jpg").data)) }

/-- Concrete detail responses delivering `c1Item`. -/
def c1Resp : Nat → HttpOutcome := fun _ => .parsed { Item := some [c1Item] }

/-- Concrete summary listing without an `itemId`. -/
def c2NoId : SummaryListing := {}

/-- Concrete summary listing with a truthy `itemId`. -/
def c2WithId : SummaryListing := { itemId := some (("1").data) }

/-- Detail fetcher that always throws. -/
def alwaysThrown : Str → DetailResult := fun _ => .thrown

/-- Concrete response sequence whose first two attempts fail with an
invalid-token body and whose third attempt succeeds with an empty response. -/
def c3Resp : Nat → HttpOutcome :=
  fun n => if n ≤ 1 then .throwBody (some (("Invalid token").data)) else .parsed {}

/-- Response sequence in which every attempt fails with an invalid-token body. -/
def c3AllInvalid : Nat → HttpOutcome :=
  fun _ => .throwBody (some (("Invalid token").data))

/-- Concrete structured error entry carrying the token-invalid code `1.32`. -/
def c4Err : EbayErr :=
  { ShortMessage := some (("Invalid token").data),
    LongMessage := some (("Application token is invalid").data),
    ErrorCode := some (("1.32").data) }

/-- Concrete responses acknowledging `Failure` with error code `1.32`. -/
def c4Resp : Nat → HttpOutcome :=
  fun _ => .parsed { Ack := some (("Failure").data), Errors := some [c4Err] }

/-- Concrete summary listing whose basic image changes under a second
resolution upgrade, distinguishing the success path from the fallback path. -/
def c4Summary : SummaryListing :=
  { itemId := some (("1").data), galleryURL := some (("/s-l64-thumb.jpg").data) }

/-- Concrete summary listing with two distinct once-upgraded image URLs that
collide under a second upgrade application. -/
def c7Summary : SummaryListing :=
  { itemId := some (("1").data), galleryURL := some (("/s-l64-thumb.jpg").data),
    pictureURL := some (.str (("/s-l1600.jpg").data)) }

/-- Concrete detail responses with no item (the detail call returns
`{ images: [] }`). -/
def c7Resp : Nat → HttpOutcome := fun _ => .parsed {}

/-- The enriched listing in which every optional nested field is absent. -/
def emptyEnriched : EnrichedListing := {}

/-- Concrete enriched listing whose detail quantity is present but unparsable. -/
def c6BadQty : EnrichedListing := { details := some { Quantity := some [("abc").data] } }

/-- Concrete enriched listing with an 8001-character description. -/
def c8Long : EnrichedListing := { description := some (List.replicate 8001 'a') }

/-- Page oracle of a store with no listings (`item` absent on every page). -/
def c9EmptyStore : Nat → PageOutcome := fun _ => PageOutcome.ok none

/-- Detail fetcher returning a fixed empty detail value. -/
def c10Fn : Str → DetailResult := fun _ => .value {}

/-- Concrete summary listing whose only image URL is already in canonical
form (a fixed point of the upgrade transform). -/
def c7Wit : SummaryListing :=
  { itemId := some (("1").data), galleryURL := some (("/a/s-l1600.jpg").data) }

/-- The seed of the `extractBasicImages` set: the upgraded gallery URL when it
is truthy. -/
def basicSeed (l : SummaryListing) : List Str :=
  match l.galleryURL with
  | some g => if g = [] then [] else [convertToHighRes g]
  | none => []

/-- The text matched by the size regex: `/s-l`, a digit run, then a dot. -/
def slPat (ds : Str) : Str := '/' :: 's' :: '-' :: 'l' :: (ds ++ ['.'])

theorem jsSetAdd_nil [DecidableEq α] (a : α) : jsSetAdd ([] : List α) a = [a] := by
  simp [jsSetAdd]

theorem mem_jsSetAdd [DecidableEq α] {l : List α} {a x : α} :
    x ∈ jsSetAdd l a ↔ x ∈ l ∨ x = a := by
  unfold jsSetAdd
  by_cases h : a ∈ l
  · rw [if_pos h]
    constructor
    · exact fun hx => Or.inl hx
    · rintro (hx | rfl)
      · exact hx
      · exact h
  · rw [if_neg h]
    simp

theorem jsSetAdd_nodup [DecidableEq α] {l : List α} (h : l.Nodup) (a : α) :
    (jsSetAdd l a).Nodup := by
  unfold jsSetAdd
  by_cases ha : a ∈ l
  · rw [if_pos ha]; exact h
  · rw [if_neg ha]
    exact List.Nodup.append h (List.nodup_singleton a) (by simpa using ha)

theorem foldl_jsSetAdd_extends [DecidableEq α] (l : List α) :
    ∀ acc : List α, ∃ e, List.foldl jsSetAdd acc l = acc ++ e ∧
      ∀ x ∈ e, x ∈ l ∧ x ∉ acc := by
  induction l with
  | nil => exact fun acc => ⟨[], by simp, by simp⟩
  | cons a l ih =>
    intro acc
    by_cases h : a ∈ acc
    · obtain ⟨e, he, hmem⟩ := ih acc
      refine ⟨e, ?_, fun x hx => ⟨List.mem_cons_of_mem _ (hmem x hx).1, (hmem x hx).2⟩⟩
      simpa [jsSetAdd, h] using he
    · obtain ⟨e, he, hmem⟩ := ih (acc ++ [a])
      refine ⟨a :: e, ?_, ?_⟩
      · simp only [List.foldl_cons]
        rw [show jsSetAdd acc a = acc ++ [a] by simp [jsSetAdd, h]]
        simpa using he
      · intro x hx
        rcases List.mem_cons.mp hx with rfl | hx
        · exact ⟨List.mem_cons_self _ _, h⟩
        · refine ⟨List.mem_cons_of_mem _ (hmem x hx).1, fun hc => (hmem x hx).2 ?_⟩
          simp [hc]

theorem mem_foldl_jsSetAdd [DecidableEq α] (l : List α) :
    ∀ (acc : List α) (x : α), x ∈ List.foldl jsSetAdd acc l ↔ x ∈ acc ∨ x ∈ l := by
  induction l with
  | nil => simp
  | cons a l ih =>
    intro acc x
    simp only [List.foldl_cons, ih, mem_jsSetAdd, List.mem_cons]
    tauto

theorem foldl_jsSetAdd_nodup [DecidableEq α] (l : List α) :
    ∀ acc : List α, acc.Nodup → (List.foldl jsSetAdd acc l).Nodup := by
  induction l with
  | nil => exact fun _ h => h
  | cons a l ih => exact fun acc h => ih _ (jsSetAdd_nodup h a)

theorem jsSet_nodup [DecidableEq α] (l : List α) : (jsSet l).Nodup :=
  foldl_jsSetAdd_nodup l [] List.nodup_nil

theorem mem_jsSet [DecidableEq α] {l : List α} {x : α} : x ∈ jsSet l ↔ x ∈ l := by
  simp [jsSet, mem_foldl_jsSetAdd]

theorem foldl_jsSetAdd_of_nodup [DecidableEq α] (l : List α) :
    ∀ acc : List α, l.Nodup → (∀ x ∈ l, x ∉ acc) →
      List.foldl jsSetAdd acc l = acc ++ l := by
  induction l with
  | nil => simp
  | cons a l ih =>
    intro acc hnd hdis
    have ha : a ∉ acc := hdis a (List.mem_cons_self _ _)
    simp only [List.foldl_cons]
    rw [show jsSetAdd acc a = acc ++ [a] by simp [jsSetAdd, ha]]
    rw [ih (acc ++ [a]) hnd.of_cons ?_]
    · simp
    · intro x hx
      simp only [List.mem_append, List.mem_singleton]
      rintro (hc | rfl)
      · exact hdis x (List.mem_cons_of_mem _ hx) hc
      · exact (List.nodup_cons.mp hnd).1 hx

theorem jsSet_eq_self_of_nodup [DecidableEq α] {l : List α} (h : l.Nodup) : jsSet l = l := by
  simpa using foldl_jsSetAdd_of_nodup l [] h (by simp)

theorem jsSet_append [DecidableEq α] (xs ys : List α) :
    jsSet (xs ++ ys) = List.foldl jsSetAdd (jsSet xs) ys := by
  simp [jsSet, List.foldl_append]

theorem replLitAux_eq_none {pat rep x : Str} (h : containsLit pat x = false) :
    replLitAux pat rep x = none := by
  induction x with
  | nil =>
    simp only [containsLit] at h
    simp [replLitAux, h]
  | cons c cs ih =>
    simp only [containsLit, Bool.or_eq_false_iff] at h
    simp [replLitAux, h.1, ih h.2]

theorem replLit_eq_self {pat rep x : Str} (h : containsLit pat x = false) :
    replLit pat rep x = x := by
  simp [replLit, replLitAux_eq_none h]

theorem replSlAux_eq_none {x : Str} (h : containsSl x = false) : replSlAux x = none := by
  induction x with
  | nil => rfl
  | cons c cs ih =>
    simp only [containsSl, Bool.or_eq_false_iff] at h
    have hs : slHere (c :: cs) = none := by
      cases hh : slHere (c :: cs)
      · rfl
      · rw [hh] at h; simp at h
    simp [replSlAux, hs, ih h.2]

theorem replSl_eq_self {x : Str} (h : containsSl x = false) : replSl x = x := by
  simp [replSl, replSlAux_eq_none h]

theorem replLitAux_ne_nil {pat rep : Str} (hrep : rep ≠ []) :
    ∀ {x y : Str}, replLitAux pat rep x = some y → y ≠ [] := by
  intro x
  induction x with
  | nil =>
    intro y hy
    by_cases h : pat.isPrefixOf ([] : Str)
    · simp [replLitAux, h] at hy
      exact hy ▸ hrep
    · simp [replLitAux, h] at hy
  | cons c cs ih =>
    intro y hy
    by_cases h : pat.isPrefixOf (c :: cs)
    · simp only [replLitAux, if_pos h] at hy
      obtain rfl := Option.some.inj hy
      simp [hrep]
    · simp only [replLitAux, if_neg h, Option.map_eq_some'] at hy
      obtain ⟨t, -, rfl⟩ := hy
      simp

theorem replSlAux_ne_nil : ∀ {x y : Str}, replSlAux x = some y → y ≠ [] := by
  intro x
  induction x with
  | nil => intro y hy; simp [replSlAux] at hy
  | cons c cs ih =>
    intro y hy
    cases hh : slHere (c :: cs) with
    | some p =>
      rw [replSlAux, hh] at hy
      obtain rfl := Option.some.inj hy
      simp [slCanon]
    | none =>
      rw [replSlAux, hh] at hy
      simp only [Option.map_eq_some'] at hy
      obtain ⟨t, -, rfl⟩ := hy
      simp

theorem replLit_ne_nil {pat rep x : Str} (hrep : rep ≠ []) (hx : x ≠ []) :
    replLit pat rep x ≠ [] := by
  unfold replLit
  cases h : replLitAux pat rep x with
  | none => exact hx
  | some y => exact replLitAux_ne_nil hrep h

theorem replSl_ne_nil {x : Str} (hx : x ≠ []) : replSl x ≠ [] := by
  unfold replSl
  cases h : replSlAux x with
  | none => exact hx
  | some y => exact replSlAux_ne_nil h

theorem convertToHighRes_ne_nil {u : Str} (h : u ≠ []) : convertToHighRes u ≠ [] := by
  unfold convertToHighRes
  rw [if_neg h]
  exact replLit_ne_nil (by decide) (replSl_ne_nil (replLit_ne_nil (by decide) h))

theorem map_eq_self_of_fixed {α : Type} {l : List α} {f : α → α} (h : ∀ x ∈ l, f x = x) :
    l.map f = l := by
  induction l with
  | nil => rfl
  | cons a l ih =>
    rw [List.map_cons, h a (List.mem_cons_self _ _),
      ih (fun x hx => h x (List.mem_cons_of_mem _ hx))]

theorem jsKeepUrl_eq_some {o : Option Str} {v : Str} :
    jsKeepUrl o = some v ↔ o = some v ∧ v ≠ [] := by
  cases o with
  | none => simp [jsKeepUrl]
  | some s =>
    by_cases h : s = []
    · subst h
      simp [jsKeepUrl]
    · simp only [jsKeepUrl, if_neg h, Option.some.injEq]
      constructor
      · rintro rfl; exact ⟨rfl, h⟩
      · exact fun hv => hv.1.symm ▸ rfl

theorem filterMap_jsKeep_map_some {xs : List Str} (h : ∀ u ∈ xs, u ≠ []) :
    (xs.map some).filterMap jsKeepUrl = xs := by
  induction xs with
  | nil => rfl
  | cons a l ih =>
    have ha := h a (List.mem_cons_self _ _)
    simp only [List.map_cons, List.filterMap_cons, jsKeepUrl, if_neg ha]
    rw [ih (fun u hu => h u (List.mem_cons_of_mem _ hu))]

theorem foldl_guard_eq [DecidableEq β] (g : Str → β) (urls : List Str) :
    ∀ acc : List β,
      urls.foldl (fun a u => if u = [] then a else jsSetAdd a (g u)) acc =
        List.foldl jsSetAdd acc ((urls.filter (fun u => !u.isEmpty)).map g) := by
  induction urls with
  | nil => intro acc; rfl
  | cons u l ih =>
    intro acc
    by_cases h : u = []
    · subst h
      simpa using ih acc
    · have hne : u.isEmpty = false := by
        cases u
        · exact absurd rfl h
        · rfl
      simp only [List.foldl_cons, if_neg h, List.filter_cons, hne]
      simpa using ih (jsSetAdd acc (g u))

theorem extractBasicImages_eq (l : SummaryListing) :
    extractBasicImages l =
      List.foldl jsSetAdd (basicSeed l)
        (((urlsOf l.pictureURL).filter (fun u => !u.isEmpty)).map convertToHighRes) := by
  cases hg : l.galleryURL with
  | none =>
    simp only [extractBasicImages, basicSeed, hg]
    exact foldl_guard_eq convertToHighRes (urlsOf l.pictureURL) []
  | some g =>
    by_cases h : g = []
    · simp only [extractBasicImages, basicSeed, hg, if_pos h]
      exact foldl_guard_eq convertToHighRes (urlsOf l.pictureURL) []
    · simp only [extractBasicImages, basicSeed, hg, if_neg h, jsSetAdd_nil]
      exact foldl_guard_eq convertToHighRes (urlsOf l.pictureURL) [convertToHighRes g]

theorem basicSeed_ne_nil (l : SummaryListing) : ∀ u ∈ basicSeed l, u ≠ [] := by
  cases hg : l.galleryURL with
  | none => simp [basicSeed, hg]
  | some g =>
    by_cases h : g = []
    · simp [basicSeed, hg, if_pos h]
    · simp only [basicSeed, hg, if_neg h]
      intro u hu
      rw [List.mem_singleton] at hu
      exact hu ▸ convertToHighRes_ne_nil h

theorem basicSeed_nodup (l : SummaryListing) : (basicSeed l).Nodup := by
  cases hg : l.galleryURL with
  | none => simp [basicSeed, hg]
  | some g =>
    by_cases h : g = []
    · simp [basicSeed, hg, if_pos h]
    · simp only [basicSeed, hg, if_neg h]
      exact List.nodup_singleton _

theorem extractBasicImages_ne_nil (l : SummaryListing) :
    ∀ u ∈ extractBasicImages l, u ≠ [] := by
  intro u hu
  rw [extractBasicImages_eq, mem_foldl_jsSetAdd] at hu
  rcases hu with hu | hu
  · exact basicSeed_ne_nil l u hu
  · rcases List.mem_map.mp hu with ⟨v, hv, rfl⟩
    have hvne : v ≠ [] := by
      have := List.of_mem_filter hv
      cases v
      · simp at this
      · simp
    exact convertToHighRes_ne_nil hvne

theorem extractBasicImages_nodup (l : SummaryListing) : (extractBasicImages l).Nodup := by
  rw [extractBasicImages_eq]
  exact foldl_jsSetAdd_nodup _ _ (basicSeed_nodup l)

theorem extractBasicImages_gallery_head {l : SummaryListing} {g : Str}
    (hg : l.galleryURL = some g) (hne : g ≠ []) :
    ∃ t, extractBasicImages l = convertToHighRes g :: t := by
  rw [extractBasicImages_eq]
  obtain ⟨e, he, -⟩ := foldl_jsSetAdd_extends
    (((urlsOf l.pictureURL).filter (fun u => !u.isEmpty)).map convertToHighRes) (basicSeed l)
  rw [he]
  simp only [basicSeed, hg, if_neg hne]
  exact ⟨e, rfl⟩

theorem mkSuccess_images_eq (l : SummaryListing) (ad : AdditionalDetails) :
    (mkSuccess l ad).images =
      (List.foldl jsSetAdd (extractBasicImages l) (ad.images.filterMap jsKeepUrl)).map
        convertToHighRes := by
  show (jsSet ((((extractBasicImages l).map some) ++ ad.images).filterMap jsKeepUrl)).map
      convertToHighRes = _
  rw [List.filterMap_append, filterMap_jsKeep_map_some (extractBasicImages_ne_nil l),
    jsSet_append, jsSet_eq_self_of_nodup (extractBasicImages_nodup l)]

/-- C1 counterexample: a listing whose gallery URL `a/thumbs/x.jpg` and whose
detail picture URL `a/x.jpg` differ raw but coincide after the resolution
upgrade produces a final image list with a single entry, refuting the claim
that URLs identical only after upgrade are not deduplicated: extraction
upgrades each URL before inserting it into the set, so deduplication operates
on upgraded URLs. -/
theorem c1_counterexample :
    (getDetailedListings (detailsVia c1Resp 1) [c1Summary]).map EnrichedListing.images =
      [[("a/x.jpg").data]] ∧
    ("a/thumbs/x.jpg").data ≠ ("a/x.jpg").data ∧
    convertToHighRes (("a/thumbs/x.jpg").data) = convertToHighRes (("a/x.jpg").data) := by
  exact ⟨by decide, by decide, by decide⟩

/-- C1 amended: deduplication is performed on the upgraded URLs — extraction
applies the resolution upgrade before set insertion, so a gallery URL and a
picture URL that become identical after upgrade collapse to one entry. -/
theorem c1_amended_dedup_on_upgraded :
    ∀ g p : Str, g ≠ [] → p ≠ [] → convertToHighRes g = convertToHighRes p →
      extractBasicImages
        { itemId := none, title := none, galleryURL := some g,
          pictureURL := some (.str p), sellingStatus := none, condition := none } =
        [convertToHighRes g] := by
  intro g p hg hp heq
  simp only [extractBasicImages, urlsOf, if_neg hg, if_neg hp, jsSetAdd_nil,
    List.foldl_cons, List.foldl_nil, heq]
  simp [jsSetAdd]

/-- C1 witness: the amended statement at the concrete raw pair. -/
theorem c1_witness :
    extractBasicImages
      { itemId := none, title := none, galleryURL := some (("a/thumbs/x.jpg").data),
        pictureURL := some (.str (("a/x.jpg").data)), sellingStatus := none,
        condition := none } = [convertToHighRes (("a/thumbs/x.jpg").data)] :=
  c1_amended_dedup_on_upgraded _ _ (by decide) (by decide) (by decide)

/-- C2 counterexample: a batch holding one listing without an `itemId` produces
an empty output — the `continue` drops the listing, so the output count is not
the input count. -/
theorem c2_counterexample :
    getDetailedListings alwaysThrown [c2NoId] = [] ∧
    (getDetailedListings alwaysThrown [c2NoId]).length ≠ [c2NoId].length := by
  exact ⟨by decide, by decide⟩

/-- C2 amended: the enricher emits exactly one record per input listing with a
truthy `itemId` (listings with a missing or empty `itemId` are skipped), and a
listing whose detail fetch throws yields the fallback record carrying only the
summary-derived images. -/
theorem c2_amended_one_output_per_fetchable :
    ∀ (f : Str → DetailResult) (ls : List SummaryListing),
      (getDetailedListings f ls).length = (ls.filter (fun l => truthyS l.itemId)).length ∧
      (∀ l : SummaryListing, truthyS l.itemId = true → f (l.itemId.getD []) = .thrown →
        getDetailedListings f [l] = [mkFallback l] ∧
        (mkFallback l).images = extractBasicImages l ∧
        (mkFallback l).description = none ∧ (mkFallback l).details = none) := by
  intro f ls
  constructor
  · induction ls with
    | nil => rfl
    | cons l ls ih =>
      by_cases h : truthyS l.itemId = true
      · cases hf : f (l.itemId.getD []) <;>
          simp [getDetailedListings, h, hf, List.filter_cons, ih]
      · simp [getDetailedListings, h, List.filter_cons, ih]
  · intro l ht hf
    exact ⟨by simp [getDetailedListings, ht, hf], rfl, rfl, rfl⟩

/-- C2 witness: the amended statement at a listing with a truthy `itemId` whose
detail fetch throws. -/
theorem c2_witness :
    getDetailedListings alwaysThrown [c2WithId] = [mkFallback c2WithId] :=
  (((c2_amended_one_output_per_fetchable alwaysThrown [c2WithId]).2) c2WithId
    (by decide) rfl).1

/-- C5 counterexample: `convertToHighRes` is not idempotent — on
`/s-l64-thumb.jpg` the first application strips `-thumb.` and exposes a size
token that only the second application rewrites. -/
theorem c5_counterexample :
    convertToHighRes (convertToHighRes (("/s-l64-thumb.jpg").data)) ≠
      convertToHighRes (("/s-l64-thumb.jpg").data) := by decide

/-- C6 counterexample: a detail quantity that is present but unparsable
(`"abc"`) yields `parseInt` `NaN`, not the claimed default of `1`. -/
theorem c6_counterexample :
    (convertToWixProduct [] c6BadQty).inventory.quantity = none ∧
    (convertToWixProduct [] c6BadQty).inventory.quantity ≠ some 1 := by
  exact ⟨by decide, by decide⟩

/-- C6 amended: on an enriched listing with every optional nested field absent
the mapper produces price `0`, quantity `1`, brand `Unbranded` and an in-stock
status, for any generated SKU; a present but unparsable quantity however yields
`NaN`, not `1`. -/
theorem c6_amended_defaults :
    ∀ sku : Str,
      (convertToWixProduct sku emptyEnriched).priceData.price = some jsZero ∧
      (convertToWixProduct sku emptyEnriched).inventory.quantity = some 1 ∧
      (convertToWixProduct sku emptyEnriched).brand = ("Unbranded").data ∧
      (convertToWixProduct sku emptyEnriched).inventory.status = ("IN_STOCK").data ∧
      (convertToWixProduct sku emptyEnriched).priceData.currency = ("USD").data ∧
      (convertToWixProduct sku c6BadQty).inventory.quantity = none := by
  intro sku
  exact ⟨rfl, rfl, rfl, rfl, rfl, rfl⟩

/-- C7 counterexample: on the success path two distinct once-upgraded URLs that
collide under a second upgrade application give a final image list with a
duplicate entry. -/
theorem c7_counterexample :
    (getDetailedListings (detailsVia c7Resp 1) [c7Summary]).map EnrichedListing.images =
      [[("/s-l1600.jpg").data, ("/s-l1600.jpg").data]] ∧
    ¬ ([("/s-l1600.jpg").data, ("/s-l1600.jpg").data] : List Str).Nodup := by
  exact ⟨by decide, by decide⟩

/-- C7 amended: image lists never contain empty entries; the fallback list is
always duplicate-free; the success list is duplicate-free whenever every
deduplicated entry is a fixed point of the upgrade transform (the final
re-application of the transform can otherwise merge distinct entries). -/
theorem c7_amended_image_list_invariants :
    ∀ (l : SummaryListing) (ad : AdditionalDetails),
      (∀ u ∈ (mkFallback l).images, u ≠ []) ∧
      (mkFallback l).images.Nodup ∧
      (∀ u ∈ (mkSuccess l ad).images, u ≠ []) ∧
      ((∀ v ∈ List.foldl jsSetAdd (extractBasicImages l) (ad.images.filterMap jsKeepUrl),
          convertToHighRes v = v) →
        (mkSuccess l ad).images.Nodup) := by
  intro l ad
  refine ⟨extractBasicImages_ne_nil l, extractBasicImages_nodup l, ?_, ?_⟩
  · intro u hu
    rw [mkSuccess_images_eq] at hu
    rcases List.mem_map.mp hu with ⟨v, hv, rfl⟩
    rw [mem_foldl_jsSetAdd] at hv
    rcases hv with hv | hv
    · exact convertToHighRes_ne_nil (extractBasicImages_ne_nil l v hv)
    · rcases List.mem_filterMap.mp hv with ⟨o, -, hkeep⟩
      obtain ⟨-, hvne⟩ := jsKeepUrl_eq_some.mp hkeep
      exact convertToHighRes_ne_nil hvne
  · intro hfix
    rw [mkSuccess_images_eq, map_eq_self_of_fixed hfix]
    exact foldl_jsSetAdd_nodup _ _ (extractBasicImages_nodup l)

/-- C7 witness: the amended statement at a listing whose only image is already
in canonical form, discharging the fixed-point hypothesis. -/
theorem c7_witness :
    (mkSuccess c7Wit { }).images.Nodup :=
  (c7_amended_image_list_invariants c7Wit { }).2.2.2 (by decide)

/-- C3 evidence: the catch handler retries by a full recursive call with no
retry counter.  On a response sequence whose first two attempts fail with an
invalid-token body, the call makes three HTTP attempts and two token refreshes
(the claim allows at most two attempts); on a sequence in which every attempt
fails with an invalid-token body, the recursion never returns for any fuel. -/
theorem c3_retry_not_limited :
    getShoppingApiDetails c3Resp 10 0 0 0 =
      some ⟨3, 2, 0, { description := none, images := [], details := none }⟩ ∧
    (∀ fuel attempt refreshAcc logAcc,
      getShoppingApiDetails c3AllInvalid fuel attempt refreshAcc logAcc = none) := by
  constructor
  · decide
  · intro fuel
    induction fuel with
    | zero => intro a r g; rfl
    | succ n ih =>
      intro a r g
      have hb : bodyHasTokenSig (some (("Invalid token").data)) = true := by decide
      simp only [getShoppingApiDetails, c3AllInvalid, hb, if_true]
      exact ih (a + 1) (r + 1) g

/-- C8: a description longer than the 8000-character maximum is mapped to its
prefix of exactly that length with nothing appended, and a description at or
below the maximum passes through unchanged. -/
theorem c8_truncation :
    ∀ (sku : Str) (l : EnrichedListing) (d : Str), l.description = some d →
      (MAX_DESC < d.length →
        (convertToWixProduct sku l).description = some (d.take MAX_DESC) ∧
        (d.take MAX_DESC).length = MAX_DESC ∧ d.take MAX_DESC ++ d.drop MAX_DESC = d) ∧
      (d.length ≤ MAX_DESC → (convertToWixProduct sku l).description = some d) := by
  intro sku l d hd
  constructor
  · intro h
    refine ⟨?_, ?_, List.take_append_drop _ _⟩
    · show (match l.description with
        | some d => if MAX_DESC < d.length then some (d.take MAX_DESC) else some d
        | none => none) = some (d.take MAX_DESC)
      rw [hd]
      exact if_pos h
    · rw [List.length_take]
      exact Nat.min_eq_left (Nat.le_of_lt h)
  · intro h
    show (match l.description with
      | some d => if MAX_DESC < d.length then some (d.take MAX_DESC) else some d
      | none => none) = some d
    rw [hd]
    exact if_neg (Nat.not_lt.mpr h)

/-- C8 witness: the truncation branch at a concrete 8001-character description. -/
theorem c8_witness :
    (convertToWixProduct [] c8Long).description =
      some ((List.replicate 8001 'a').take MAX_DESC) ∧
    ((List.replicate 8001 'a').take MAX_DESC).length = MAX_DESC :=
  have h := (c8_truncation [] c8Long (List.replicate 8001 'a') rfl).1
    (by rw [List.length_replicate]; decide)
  ⟨h.1, h.2.1⟩

/-- C10: on the success path the final image list is the twice-upgraded basic
images (gallery URL first when truthy) followed by the upgrades of exactly
those truthy detail images that were not already among the basic images, in
first-insertion order. -/
theorem c10_success_image_order :
    ∀ (f : Str → DetailResult) (l : SummaryListing) (ad : AdditionalDetails),
      truthyS l.itemId = true → f (l.itemId.getD []) = .value ad →
      getDetailedListings f [l] = [mkSuccess l ad] ∧
      (∃ rest, (mkSuccess l ad).images = (extractBasicImages l).map convertToHighRes ++ rest ∧
        ∀ u ∈ rest, ∃ v, some v ∈ ad.images ∧ v ≠ [] ∧ v ∉ extractBasicImages l ∧
          u = convertToHighRes v) ∧
      (∀ g, l.galleryURL = some g → g ≠ [] →
        ∃ t2, (mkSuccess l ad).images = convertToHighRes (convertToHighRes g) :: t2) := by
  intro f l ad ht hf
  refine ⟨by simp [getDetailedListings, ht, hf], ?_, ?_⟩
  · obtain ⟨e, he, hmem⟩ := foldl_jsSetAdd_extends (ad.images.filterMap jsKeepUrl)
      (extractBasicImages l)
    refine ⟨e.map convertToHighRes, ?_, ?_⟩
    · rw [mkSuccess_images_eq, he, List.map_append]
    · intro u hu
      rcases List.mem_map.mp hu with ⟨v, hv, rfl⟩
      obtain ⟨hvd, hvb⟩ := hmem v hv
      rcases List.mem_filterMap.mp hvd with ⟨o, ho, hkeep⟩
      obtain ⟨rfl, hvne⟩ := jsKeepUrl_eq_some.mp hkeep
      exact ⟨v, ho, hvne, hvb, rfl⟩
  · intro g hg hgne
    obtain ⟨t, ht2⟩ := extractBasicImages_gallery_head hg hgne
    obtain ⟨e, he, -⟩ := foldl_jsSetAdd_extends (ad.images.filterMap jsKeepUrl)
      (extractBasicImages l)
    refine ⟨t.map convertToHighRes ++ e.map convertToHighRes, ?_⟩
    rw [mkSuccess_images_eq, he, ht2]
    simp

/-- C10 witness: the success record at a concrete listing with a truthy item
identifier. -/
theorem c10_witness :
    getDetailedListings c10Fn [c7Summary] = [mkSuccess c7Summary { }] :=
  (c10_success_image_order c10Fn c7Summary { } (by decide) rfl).1

theorem fetchPages_pages_range (o : Nat → PageOutcome) (bs : Nat) :
    ∀ fuel s : Nat,
      (fetchPages o bs s fuel).2 = List.range' s (fetchPages o bs s fuel).2.length := by
  intro fuel
  induction fuel with
  | zero => intro s; rfl
  | succ n ih =>
    intro s
    cases ho : o s with
    | err =>
      simp only [fetchPages, ho, List.length_cons, List.range'_succ]
      exact congrArg _ (ih (s + 1))
    | ok oi =>
      cases oi with
      | none => simp [fetchPages, ho]
      | some items =>
        by_cases hlen : items.length < bs
        · simp [fetchPages, ho, hlen]
        · simp only [fetchPages, ho, if_neg hlen, List.length_cons, List.range'_succ]
          exact congrArg _ (ih (s + 1))

theorem fetchPages_pages_len (o : Nat → PageOutcome) (bs : Nat) :
    ∀ fuel s : Nat, (fetchPages o bs s fuel).2.length ≤ fuel := by
  intro fuel
  induction fuel with
  | zero => intro s; exact Nat.le_refl 0
  | succ n ih =>
    intro s
    cases ho : o s with
    | err =>
      simp only [fetchPages, ho, List.length_cons]
      exact Nat.succ_le_succ (ih (s + 1))
    | ok oi =>
      cases oi with
      | none => simp [fetchPages, ho]
      | some items =>
        by_cases hlen : items.length < bs
        · simp [fetchPages, ho, hlen]
        · simp only [fetchPages, ho, if_neg hlen, List.length_cons]
          exact Nat.succ_le_succ (ih (s + 1))

theorem fetchPages_res_join (o : Nat → PageOutcome) (bs : Nat) :
    ∀ fuel s : Nat,
      (fetchPages o bs s fuel).1 = ((fetchPages o bs s fuel).2.map (pageItems o)).flatten := by
  intro fuel
  induction fuel with
  | zero => intro s; rfl
  | succ n ih =>
    intro s
    cases ho : o s with
    | err =>
      simp only [fetchPages, ho, List.map_cons, List.flatten, pageItems]
      rw [ih (s + 1)]
      simp [pageItems, ho]
    | ok oi =>
      cases oi with
      | none => simp [fetchPages, ho, pageItems]
      | some items =>
        by_cases hlen : items.length < bs
        · simp [fetchPages, ho, hlen, pageItems]
        · simp only [fetchPages, ho, if_neg hlen, List.map_cons, List.flatten]
          rw [ih (s + 1)]
          simp [pageItems, ho]

theorem fetchPages_pages_cons (o : Nat → PageOutcome) (bs s fuel : Nat) (h : 0 < fuel) :
    ∃ t, (fetchPages o bs s fuel).2 = s :: t := by
  cases fuel with
  | zero => exact absurd h (Nat.lt_irrefl 0)
  | succ n =>
    cases ho : o s with
    | err => exact ⟨(fetchPages o bs (s + 1) n).2, by simp [fetchPages, ho]⟩
    | ok oi =>
      cases oi with
      | none => exact ⟨[], by simp [fetchPages, ho]⟩
      | some items =>
        by_cases hlen : items.length < bs
        · exact ⟨[], by simp [fetchPages, ho, hlen]⟩
        · exact ⟨(fetchPages o bs (s + 1) n).2, by simp [fetchPages, ho, hlen]⟩

theorem fetchPages_stop (o : Nat → PageOutcome) (bs : Nat) :
    ∀ fuel s : Nat, (fetchPages o bs s fuel).2.length < fuel →
      ∃ last, (fetchPages o bs s fuel).2.getLast? = some last ∧
        (o last = .ok none ∨ ∃ items, o last = .ok (some items) ∧ items.length < bs) := by
  intro fuel
  induction fuel with
  | zero => intro s h; exact absurd h (Nat.not_lt_zero _)
  | succ n ih =>
    intro s h
    cases ho : o s with
    | err =>
      rw [show (fetchPages o bs s (n + 1)).2 = s :: (fetchPages o bs (s + 1) n).2 by
        simp [fetchPages, ho]] at h ⊢
      have hlt : (fetchPages o bs (s + 1) n).2.length < n := by
        simpa using Nat.lt_of_succ_lt_succ h
      obtain ⟨last, hl, hcond⟩ := ih (s + 1) hlt
      refine ⟨last, ?_, hcond⟩
      obtain ⟨b, t, hbt⟩ : ∃ b t, (fetchPages o bs (s + 1) n).2 = b :: t := by
        cases hx : (fetchPages o bs (s + 1) n).2 with
        | nil => rw [hx] at hl; exact absurd hl (by simp)
        | cons b t => exact ⟨b, t, rfl⟩
      rw [hbt] at hl ⊢
      rw [List.getLast?_cons_cons]
      exact hl
    | ok oi =>
      cases oi with
      | none =>
        refine ⟨s, ?_, Or.inl ho⟩
        rw [show (fetchPages o bs s (n + 1)).2 = [s] by simp [fetchPages, ho]]
        rfl
      | some items =>
        by_cases hlen : items.length < bs
        · refine ⟨s, ?_, Or.inr ⟨items, ho, hlen⟩⟩
          rw [show (fetchPages o bs s (n + 1)).2 = [s] by simp [fetchPages, ho, hlen]]
          rfl
        · rw [show (fetchPages o bs s (n + 1)).2 = s :: (fetchPages o bs (s + 1) n).2 by
            simp [fetchPages, ho, hlen]] at h ⊢
          have hlt : (fetchPages o bs (s + 1) n).2.length < n := by
            simpa using Nat.lt_of_succ_lt_succ h
          obtain ⟨last, hl, hcond⟩ := ih (s + 1) hlt
          refine ⟨last, ?_, hcond⟩
          obtain ⟨b, t, hbt⟩ : ∃ b t, (fetchPages o bs (s + 1) n).2 = b :: t := by
            cases hx : (fetchPages o bs (s + 1) n).2 with
            | nil => rw [hx] at hl; exact absurd hl (by simp)
            | cons b t => exact ⟨b, t, rfl⟩
          rw [hbt] at hl ⊢
          rw [List.getLast?_cons_cons]
          exact hl

theorem fetchPages_err_next (o : Nat → PageOutcome) (bs : Nat) :
    ∀ fuel s p : Nat, p ∈ (fetchPages o bs s fuel).2 → o p = .err → p + 1 < s + fuel →
      p + 1 ∈ (fetchPages o bs s fuel).2 := by
  intro fuel
  induction fuel with
  | zero => intro s p hp; exact absurd hp (by simp [fetchPages])
  | succ n ih =>
    intro s p hp hop hlt
    cases ho : o s with
    | err =>
      rw [show (fetchPages o bs s (n + 1)).2 = s :: (fetchPages o bs (s + 1) n).2 by
        simp [fetchPages, ho]] at hp ⊢
      rcases List.mem_cons.mp hp with rfl | hp
      · have hn : 0 < n := by omega
        obtain ⟨t, hc⟩ := fetchPages_pages_cons o bs (p + 1) n hn
        rw [hc]
        exact List.mem_cons_of_mem _ (List.mem_cons_self _ _)
      · exact List.mem_cons_of_mem _ (ih (s + 1) p hp hop (by omega))
    | ok oi =>
      cases oi with
      | none =>
        rw [show (fetchPages o bs s (n + 1)).2 = [s] by simp [fetchPages, ho]] at hp
        rcases List.mem_singleton.mp hp with rfl
        rw [ho] at hop
        exact absurd hop (by simp)
      | some items =>
        by_cases hlen : items.length < bs
        · rw [show (fetchPages o bs s (n + 1)).2 = [s] by simp [fetchPages, ho, hlen]] at hp
          rcases List.mem_singleton.mp hp with rfl
          rw [ho] at hop
          exact absurd hop (by simp)
        · rw [show (fetchPages o bs s (n + 1)).2 = s :: (fetchPages o bs (s + 1) n).2 by
            simp [fetchPages, ho, hlen]] at hp ⊢
          rcases List.mem_cons.mp hp with rfl | hp
          · rw [ho] at hop
            exact absurd hop (by simp)
          · exact List.mem_cons_of_mem _ (ih (s + 1) p hp hop (by omega))

theorem fetchPages_mid_full (o : Nat → PageOutcome) (bs : Nat) :
    ∀ fuel s p : Nat, p ∈ (fetchPages o bs s fuel).2 →
      (fetchPages o bs s fuel).2.getLast? ≠ some p →
      (o p = .err ∨ ∃ items, o p = .ok (some items) ∧ bs ≤ items.length) := by
  intro fuel
  induction fuel with
  | zero => intro s p hp; exact absurd hp (by simp [fetchPages])
  | succ n ih =>
    intro s p hp hlast
    cases ho : o s with
    | err =>
      rw [show (fetchPages o bs s (n + 1)).2 = s :: (fetchPages o bs (s + 1) n).2 by
        simp [fetchPages, ho]] at hp hlast
      rcases List.mem_cons.mp hp with rfl | hp
      · exact Or.inl ho
      · obtain ⟨b, t, hbt⟩ : ∃ b t, (fetchPages o bs (s + 1) n).2 = b :: t := by
          cases hx : (fetchPages o bs (s + 1) n).2 with
          | nil => rw [hx] at hp; exact absurd hp (by simp)
          | cons b t => exact ⟨b, t, rfl⟩
        rw [hbt, List.getLast?_cons_cons] at hlast
        refine ih (s + 1) p hp ?_
        rw [hbt]
        exact hlast
    | ok oi =>
      cases oi with
      | none =>
        rw [show (fetchPages o bs s (n + 1)).2 = [s] by simp [fetchPages, ho]] at hp hlast
        rcases List.mem_singleton.mp hp with rfl
        exact absurd rfl hlast
      | some items =>
        by_cases hlen : items.length < bs
        · rw [show (fetchPages o bs s (n + 1)).2 = [s] by
            simp [fetchPages, ho, hlen]] at hp hlast
          rcases List.mem_singleton.mp hp with rfl
          exact absurd rfl hlast
        · rw [show (fetchPages o bs s (n + 1)).2 = s :: (fetchPages o bs (s + 1) n).2 by
            simp [fetchPages, ho, hlen]] at hp hlast
          rcases List.mem_cons.mp hp with rfl | hp
          · exact Or.inr ⟨items, ho, Nat.not_lt.mp hlen⟩
          · obtain ⟨b, t, hbt⟩ : ∃ b t, (fetchPages o bs (s + 1) n).2 = b :: t := by
              cases hx : (fetchPages o bs (s + 1) n).2 with
              | nil => rw [hx] at hp; exact absurd hp (by simp)
              | cons b t => exact ⟨b, t, rfl⟩
            rw [hbt, List.getLast?_cons_cons] at hlast
            refine ih (s + 1) p hp ?_
            rw [hbt]
            exact hlast

/-- C9: the paging loop returns the ordered concatenation of the item lists of
the consecutive pages it processes starting at page 1; it processes at most the
configured cap of pages; when it stops before the cap, the last processed page
returned no `item` array or a short page; a thrown page does not stop the loop
(the next page within the cap is still processed); every non-final processed
page either threw or was full; and a store answering with no `item` array
yields the empty listing sequence. -/
theorem c9_fetcher_paging :
    ∀ (oracle : Nat → PageOutcome) (bs m : Nat),
      ((fetchPages oracle bs 1 m).2 =
        List.range' 1 (fetchPages oracle bs 1 m).2.length) ∧
      ((fetchPages oracle bs 1 m).2.length ≤ m) ∧
      ((fetchPages oracle bs 1 m).1 =
        ((fetchPages oracle bs 1 m).2.map (pageItems oracle)).flatten) ∧
      ((fetchPages oracle bs 1 m).2.length < m →
        ∃ last, (fetchPages oracle bs 1 m).2.getLast? = some last ∧
          (oracle last = .ok none ∨
            ∃ items, oracle last = .ok (some items) ∧ items.length < bs)) ∧
      (∀ p ∈ (fetchPages oracle bs 1 m).2, oracle p = .err → p + 1 ≤ m →
        p + 1 ∈ (fetchPages oracle bs 1 m).2) ∧
      (∀ p ∈ (fetchPages oracle bs 1 m).2,
        (fetchPages oracle bs 1 m).2.getLast? ≠ some p →
        (oracle p = .err ∨ ∃ items, oracle p = .ok (some items) ∧ bs ≤ items.length)) ∧
      (oracle 1 = .ok none →
        (fetchPages oracle bs 1 m).1 = [] ∧ getAllEbayListings oracle = []) := by
  intro oracle bs m
  refine ⟨fetchPages_pages_range oracle bs m 1, fetchPages_pages_len oracle bs m 1,
    fetchPages_res_join oracle bs m 1, fetchPages_stop oracle bs m 1, ?_, ?_, ?_⟩
  · intro p hp hop hle
    exact fetchPages_err_next oracle bs m 1 p hp hop (by omega)
  · exact fetchPages_mid_full oracle bs m 1
  · intro h1
    constructor
    · cases m with
      | zero => rfl
      | succ n => simp [fetchPages, h1]
    · simp [getAllEbayListings, MAX_PAGES, BATCH_SIZE, fetchPages, h1]

/-- C9 witness: the empty-store case at a concrete oracle. -/
theorem c9_witness :
    getAllEbayListings c9EmptyStore = [] :=
  ((c9_fetcher_paging c9EmptyStore 10 1).2.2.2.2.2.2 rfl).2

/-- C4 counterexample: on an `Ack = 'Failure'` response with error code `1.32`
the call logs the error and triggers one token refresh, but the internal throw
is caught by the function's own catch handler, which returns `{ images: [] }`;
the caller therefore stays on its success path — the enriched record's images
are the twice-upgraded basic images (`/s-l1600.jpg`), not the fallback record's
once-upgraded basic images (`/s-l64.jpg`), so the fallback path did not engage. -/
theorem c4_counterexample :
    getShoppingApiDetails c4Resp 5 0 0 0 =
      some ⟨1, 1, 1, { description := none, images := [], details := none }⟩ ∧
    (getDetailedListings (detailsVia c4Resp 5) [c4Summary]).map EnrichedListing.images =
      [[("/s-l1600.jpg").data]] ∧
    (mkFallback c4Summary).images = [("/s-l64.jpg").data] ∧
    ([[("/s-l1600.jpg").data]] : List (List Str)) ≠ [(mkFallback c4Summary).images] := by
  exact ⟨by decide, by decide, by decide, by decide⟩

/-- C4 amended: an `Ack = 'Failure'` response with a structured error array
makes exactly one HTTP attempt, logs every error entry, triggers one token
refresh per token-invalid code, and returns `{ images: [] }` normally — the
exception is swallowed by the function's own catch handler, so the caller
proceeds on its success path with only the summary-derived images. -/
theorem c4_amended_failure_swallowed :
    ∀ (resp : Nat → HttpOutcome) (r : ParsedResponse) (errs : List EbayErr) (fuel : Nat),
      resp 0 = .parsed r → r.Ack = some (("Failure").data) → r.Errors = some errs →
      getShoppingApiDetails resp (fuel + 1) 0 0 0 =
        some ⟨1, countTokenErrs errs, errs.length,
          { description := none, images := [], details := none }⟩ := by
  intro resp r errs fuel h0 hack herrs
  simp [getShoppingApiDetails, h0, hack, herrs]

/-- C4 witness: the amended statement at the concrete failure response. -/
theorem c4_witness :
    getShoppingApiDetails c4Resp 1 0 0 0 =
      some ⟨1, countTokenErrs [c4Err], [c4Err].length,
        { description := none, images := [], details := none }⟩ :=
  c4_amended_failure_swallowed c4Resp _ [c4Err] 0 rfl rfl rfl

theorem isPrefixOf_iff_take :
    ∀ (q z : Str), q.isPrefixOf z = true ↔ z.take q.length = q := by
  intro q
  induction q with
  | nil => intro z; simp [List.isPrefixOf]
  | cons a q ih =>
    intro z
    cases z with
    | nil => simp [List.isPrefixOf]
    | cons b z =>
      simp only [List.isPrefixOf, List.length_cons, List.take_succ_cons,
        Bool.and_eq_true, beq_iff_eq, List.cons.injEq, ih z]
      constructor
      · rintro ⟨rfl, h⟩; exact ⟨rfl, h⟩
      · rintro ⟨rfl, h⟩; exact ⟨rfl, h⟩

theorem isPrefixOf_cons_false {a c : Char} {q' z : Str} (h : a ≠ c) :
    ((a :: q').isPrefixOf (c :: z)) = false := by
  simp [List.isPrefixOf, h]

theorem digit_ne {c e : Char} (hc : c.isDigit = true) (he : e.isDigit = false) : e ≠ c := by
  intro h
  rw [h, hc] at he
  exact absurd he (by simp)

theorem takeWhile_append_stop {p : Char → Bool} :
    ∀ (u : Str) (c : Char) (v : Str), u.all p = true → p c = false →
      ((u ++ c :: v).takeWhile p = u ∧ (u ++ c :: v).dropWhile p = c :: v) := by
  intro u
  induction u with
  | nil => intro c v _ hc; simp [List.takeWhile, List.dropWhile, hc]
  | cons e u ih =>
    intro c v hall hc
    rw [List.all_cons, Bool.and_eq_true] at hall
    have := ih c v hall.2 hc
    simp [List.takeWhile, List.dropWhile, hall.1, this.1, this.2]

theorem takeWhile_append_not_all {p : Char → Bool} :
    ∀ (u v : Str), u.all p = false →
      ((u ++ v).takeWhile p = u.takeWhile p ∧ (u ++ v).dropWhile p = u.dropWhile p ++ v) := by
  intro u
  induction u with
  | nil => intro v h; simp [List.all_nil] at h
  | cons e u ih =>
    intro v hall
    rw [List.all_cons, Bool.and_eq_false_iff] at hall
    by_cases he : p e = true
    · have hu : u.all p = false := by
        rcases hall with h | h
        · rw [he] at h; exact absurd h (by simp)
        · exact h
      have := ih v hu
      simp [List.takeWhile, List.dropWhile, he, this.1, this.2]
    · rw [Bool.not_eq_true] at he
      simp [List.takeWhile, List.dropWhile, he]

theorem dropWhile_ne_nil_of_not_all {p : Char → Bool} {u : Str} (h : u.all p = false) :
    u.dropWhile p ≠ [] := by
  intro hnil
  rw [List.dropWhile_eq_nil_iff] at hnil
  have hall : u.all p = true := List.all_eq_true.mpr (fun a ha => hnil a ha)
  rw [hall] at h
  exact absurd h (by simp)

theorem slHere_slPat (ds B : Str) (hne : ds ≠ []) (hdig : ds.all Char.isDigit = true) :
    slHere (slPat ds ++ B) = some (ds, B) := by
  have hshape : slPat ds ++ B = '/' :: 's' :: '-' :: 'l' :: (ds ++ '.' :: B) := by
    simp [slPat]
  rw [hshape]
  have hstop := takeWhile_append_stop ds '.' B hdig (by decide)
  cases ds with
  | nil => exact absurd rfl hne
  | cons d ds' =>
    show (if ('/' : Char) = '/' ∧ ('s' : Char) = 's' ∧ ('-' : Char) = '-' ∧ ('l' : Char) = 'l'
      then
        match (d :: ds' ++ '.' :: B).dropWhile Char.isDigit,
            (d :: ds' ++ '.' :: B).takeWhile Char.isDigit with
        | '.' :: tail, e :: es => some (e :: es, tail)
        | _, _ => none
      else none) = some (d :: ds', B)
    rw [if_pos ⟨rfl, rfl, rfl, rfl⟩, hstop.1, hstop.2]
    rfl

theorem slCanon_eq_slPat : slCanon = slPat (("1600").data) := by decide

theorem slHere_some_decomp : ∀ {z ds tail : Str}, slHere z = some (ds, tail) →
    z = slPat ds ++ tail ∧ ds ≠ [] ∧ ds.all Char.isDigit = true := by
  intro z ds tail h
  unfold slHere at h
  split at h
  · rename_i a b c d rest
    split at h
    · rename_i hcond
      obtain ⟨rfl, rfl, rfl, rfl⟩ := hcond
      split at h
      · rename_i tail2 e es hdw htw
        obtain ⟨h1, h2⟩ := Prod.mk.inj (Option.some.inj h)
        subst h1
        subst h2
        refine ⟨?_, by simp, ?_⟩
        · have hr : rest = (e :: es) ++ '.' :: tail2 := by
            conv_lhs => rw [← List.takeWhile_append_dropWhile (p := Char.isDigit) (l := rest)]
            rw [htw, hdw]
          rw [hr]
          simp [slPat]
        · rw [← htw]
          exact List.all_eq_true.mpr (fun a ha => List.mem_takeWhile_imp ha)
      · exact absurd h (by simp)
    · exact absurd h (by simp)
  · exact absurd h (by simp)

theorem replSlAux_of_slHere {z ds tail : Str} (h : slHere z = some (ds, tail)) :
    replSlAux z = some (slCanon ++ tail) := by
  cases z with
  | nil => exact absurd h (by simp [slHere])
  | cons c cs => rw [replSlAux, h]

theorem replSlAux_decomp : ∀ {x y : Str}, replSlAux x = some y →
    ∃ A ds B, x = A ++ slPat ds ++ B ∧ y = A ++ slCanon ++ B ∧
      ds ≠ [] ∧ ds.all Char.isDigit = true := by
  intro x
  induction x with
  | nil => intro y h; exact absurd h (by simp [replSlAux])
  | cons c cs ih =>
    intro y h
    cases hh : slHere (c :: cs) with
    | some p =>
      rw [replSlAux, hh] at h
      obtain rfl := Option.some.inj h
      obtain ⟨hz, hne, hdig⟩ := slHere_some_decomp hh
      exact ⟨[], p.1, p.2, by simpa using hz, by simp, hne, hdig⟩
    | none =>
      rw [replSlAux, hh] at h
      simp only [Option.map_eq_some'] at h
      obtain ⟨y', hy', rfl⟩ := h
      obtain ⟨A, ds, B, hx, hy, hne, hdig⟩ := ih hy'
      exact ⟨c :: A, ds, B, by rw [hx]; rfl, by rw [hy]; rfl, hne, hdig⟩

theorem slHere_transfer :
    ∀ (w B ds₁ ds₂ : Str), ds₁ ≠ [] → ds₁.all Char.isDigit = true →
      ds₂ ≠ [] → ds₂.all Char.isDigit = true →
      slHere (w ++ slPat ds₁ ++ B) = none → slHere (w ++ slPat ds₂ ++ B) = none := by
  intro w B ds₁ ds₂ hne1 hd1 hne2 hd2 h
  rcases w with - | ⟨a, - | ⟨b, - | ⟨c, - | ⟨d, w'⟩⟩⟩⟩
  · rw [List.nil_append, slHere_slPat ds₁ B hne1 hd1] at h
    exact absurd h (by simp)
  · show slHere (a :: '/' :: 's' :: '-' :: ('l' :: ((ds₂ ++ ['.']) ++ B))) = none
    simp only [slHere]
    rw [if_neg]
    rintro ⟨-, hx, -, -⟩
    exact absurd hx (by decide)
  · show slHere (a :: b :: '/' :: 's' :: ('-' :: 'l' :: ((ds₂ ++ ['.']) ++ B))) = none
    simp only [slHere]
    rw [if_neg]
    rintro ⟨-, -, hx, -⟩
    exact absurd hx (by decide)
  · show slHere (a :: b :: c :: '/' :: ('s' :: '-' :: 'l' :: ((ds₂ ++ ['.']) ++ B))) = none
    simp only [slHere]
    rw [if_neg]
    rintro ⟨-, -, -, hx⟩
    exact absurd hx (by decide)
  · rw [List.cons_append, List.cons_append, List.cons_append, List.cons_append,
      List.append_assoc] at h ⊢
    have hshow : slHere (a :: b :: c :: d :: (w' ++ (slPat ds₁ ++ B))) = none := h
    clear h
    show slHere (a :: b :: c :: d :: (w' ++ (slPat ds₂ ++ B))) = none
    simp only [slHere] at hshow ⊢
    by_cases hcond : a = '/' ∧ b = 's' ∧ c = '-' ∧ d = 'l'
    · rw [if_pos hcond] at hshow ⊢
      by_cases hall : w'.all Char.isDigit = true
      · have h1 := takeWhile_append_stop w' '/'
          ('s' :: '-' :: 'l' :: ((ds₂ ++ ['.']) ++ B)) hall (by decide)
        rw [show w' ++ (slPat ds₂ ++ B) =
            w' ++ '/' :: ('s' :: '-' :: 'l' :: ((ds₂ ++ ['.']) ++ B)) from rfl,
          h1.1, h1.2]
        rfl
      · have hallf : w'.all Char.isDigit = false := by
          cases hx : w'.all Char.isDigit
          · rfl
          · exact absurd hx hall
        have hne : w'.dropWhile Char.isDigit ≠ [] := dropWhile_ne_nil_of_not_all hallf
        obtain ⟨e, u₂, he⟩ : ∃ e u₂, w'.dropWhile Char.isDigit = e :: u₂ := by
          cases hx : w'.dropWhile Char.isDigit with
          | nil => exact absurd hx hne
          | cons e u₂ => exact ⟨e, u₂, rfl⟩
        have h2a := takeWhile_append_not_all w' (slPat ds₁ ++ B) hallf
        have h2b := takeWhile_append_not_all w' (slPat ds₂ ++ B) hallf
        rw [h2a.1, h2a.2, he, List.cons_append] at hshow
        rw [h2b.1, h2b.2, he, List.cons_append]
        by_cases hedot : e = '.'
        · subst hedot
          cases htw : w'.takeWhile Char.isDigit with
          | nil => rfl
          | cons f fs =>
            rw [htw] at hshow
            exact absurd hshow (by simp)
        · split
          · rename_i tail es heq1 heq2
            obtain rfl := (List.cons.inj heq1).1
            exact absurd rfl hedot
          · rfl
    · rw [if_neg hcond]

theorem slHere_cons_none_of_repl {c : Char} {cs y : Str}
    (h1 : slHere (c :: cs) = none) (h2 : replSlAux cs = some y) : slHere (c :: y) = none := by
  obtain ⟨A, ds, B, hx, hy, hne, hdig⟩ := replSlAux_decomp h2
  subst hx
  subst hy
  rw [show c :: (A ++ slPat ds ++ B) = (c :: A) ++ slPat ds ++ B by simp] at h1
  rw [show c :: (A ++ slCanon ++ B) = (c :: A) ++ slPat (("1600").data) ++ B by
    rw [slCanon_eq_slPat]; simp]
  exact slHere_transfer (c :: A) B ds (("1600").data) hne hdig (by decide) (by decide) h1

theorem replSlAux_some_self : ∀ {x y : Str}, replSlAux x = some y → replSlAux y = some y := by
  intro x
  induction x with
  | nil => intro y h; exact absurd h (by simp [replSlAux])
  | cons c cs ih =>
    intro y h
    cases hh : slHere (c :: cs) with
    | some p =>
      rw [replSlAux, hh] at h
      obtain rfl := Option.some.inj h
      have hsl : slHere (slCanon ++ p.2) = some ((("1600").data), p.2) := by
        rw [slCanon_eq_slPat]
        exact slHere_slPat _ _ (by decide) (by decide)
      rw [replSlAux_of_slHere hsl]
    | none =>
      rw [replSlAux, hh] at h
      simp only [Option.map_eq_some'] at h
      obtain ⟨y', hy', rfl⟩ := h
      have hnone := slHere_cons_none_of_repl hh hy'
      rw [replSlAux, hnone, ih hy']
      rfl

theorem replSl_idem (x : Str) : replSl (replSl x) = replSl x := by
  cases h : replSlAux x with
  | none => simp [replSl, h]
  | some y => simp [replSl, h, replSlAux_some_self h]

theorem thumbs_data_eq :
    ("/thumbs/").data = '/' :: 't' :: 'h' :: 'u' :: 'm' :: 'b' :: 's' :: '/' :: [] := by decide

theorem thumbB_data_eq :
    ("-thumb.").data = '-' :: 't' :: 'h' :: 'u' :: 'm' :: 'b' :: '.' :: [] := by decide

theorem isPrefixOf_cons2_false {p₀ p₁ c₀ c₁ : Char} {p' z : Str} (h : p₁ ≠ c₁) :
    ((p₀ :: p₁ :: p').isPrefixOf (c₀ :: c₁ :: z)) = false := by
  have hb : (p₁ == c₁) = false := by simp [h]
  simp [List.isPrefixOf, hb]

theorem isPrefixOf_cons3_false {p₀ p₁ p₂ c₀ c₁ c₂ : Char} {p' z : Str} (h : p₂ ≠ c₂) :
    ((p₀ :: p₁ :: p₂ :: p').isPrefixOf (c₀ :: c₁ :: c₂ :: z)) = false := by
  have hb : (p₂ == c₂) = false := by simp [h]
  simp [List.isPrefixOf, hb]

theorem isPrefixOf_cons4_false {p₀ p₁ p₂ p₃ c₀ c₁ c₂ c₃ : Char} {p' z : Str} (h : p₃ ≠ c₃) :
    ((p₀ :: p₁ :: p₂ :: p₃ :: p').isPrefixOf (c₀ :: c₁ :: c₂ :: c₃ :: z)) = false := by
  have hb : (p₃ == c₃) = false := by simp [h]
  simp [List.isPrefixOf, hb]

theorem containsLit_digits_skip {q₀ : Char} {q' : Str} (h0 : q₀.isDigit = false) :
    ∀ ds B : Str, ds.all Char.isDigit = true →
      containsLit (q₀ :: q') (ds ++ B) = containsLit (q₀ :: q') B := by
  intro ds
  induction ds with
  | nil => intro B _; rfl
  | cons d ds ih =>
    intro B hall
    rw [List.all_cons, Bool.and_eq_true] at hall
    show ((q₀ :: q').isPrefixOf (d :: (ds ++ B)) || containsLit (q₀ :: q') (ds ++ B)) =
      containsLit (q₀ :: q') B
    rw [isPrefixOf_cons_false (digit_ne hall.1 h0), ih B hall.2]
    simp

theorem containsLit_slPat_thumbs (ds B : Str) (hdig : ds.all Char.isDigit = true) :
    containsLit (("/thumbs/").data) (slPat ds ++ B) = containsLit (("/thumbs/").data) B := by
  rw [show slPat ds ++ B = '/' :: 's' :: '-' :: 'l' :: (ds ++ '.' :: B) by simp [slPat]]
  rw [thumbs_data_eq]
  show (_ || (_ || (_ || (_ || containsLit _ (ds ++ '.' :: B))))) = _
  rw [isPrefixOf_cons2_false (by decide), isPrefixOf_cons_false (by decide),
    isPrefixOf_cons_false (by decide), isPrefixOf_cons_false (by decide),
    containsLit_digits_skip (by decide) ds ('.' :: B) hdig]
  show (false || (false || (false || (false ||
    (_ || containsLit _ B))))) = _
  rw [isPrefixOf_cons_false (by decide)]
  simp

theorem containsLit_slPat_thumbB (ds B : Str) (hdig : ds.all Char.isDigit = true) :
    containsLit (("-thumb.").data) (slPat ds ++ B) = containsLit (("-thumb.").data) B := by
  rw [show slPat ds ++ B = '/' :: 's' :: '-' :: 'l' :: (ds ++ '.' :: B) by simp [slPat]]
  rw [thumbB_data_eq]
  show (_ || (_ || (_ || (_ || containsLit _ (ds ++ '.' :: B))))) = _
  rw [isPrefixOf_cons_false (by decide), isPrefixOf_cons_false (by decide),
    isPrefixOf_cons2_false (by decide), isPrefixOf_cons_false (by decide),
    containsLit_digits_skip (by decide) ds ('.' :: B) hdig]
  show (false || (false || (false || (false ||
    (_ || containsLit _ B))))) = _
  rw [isPrefixOf_cons_false (by decide)]
  simp

theorem isPrefixOf_slPat_transfer_thumbs :
    ∀ (w B ds₁ ds₂ : Str),
      ((("/thumbs/").data).isPrefixOf (w ++ slPat ds₁ ++ B)) =
        ((("/thumbs/").data).isPrefixOf (w ++ slPat ds₂ ++ B)) := by
  intro w B ds₁ ds₂
  rcases w with - | ⟨a, - | ⟨b, - | ⟨c, - | ⟨d, w'⟩⟩⟩⟩
  · rw [thumbs_data_eq,
      show ([] : Str) ++ slPat ds₁ ++ B = '/' :: 's' :: '-' :: 'l' :: (ds₁ ++ '.' :: B) by
        simp [slPat],
      show ([] : Str) ++ slPat ds₂ ++ B = '/' :: 's' :: '-' :: 'l' :: (ds₂ ++ '.' :: B) by
        simp [slPat],
      isPrefixOf_cons2_false (by decide), isPrefixOf_cons2_false (by decide)]
  · rw [thumbs_data_eq,
      show [a] ++ slPat ds₁ ++ B = a :: '/' :: 's' :: '-' :: ('l' :: (ds₁ ++ '.' :: B)) by
        simp [slPat],
      show [a] ++ slPat ds₂ ++ B = a :: '/' :: 's' :: '-' :: ('l' :: (ds₂ ++ '.' :: B)) by
        simp [slPat],
      isPrefixOf_cons2_false (by decide), isPrefixOf_cons2_false (by decide)]
  · rw [thumbs_data_eq,
      show [a, b] ++ slPat ds₁ ++ B = a :: b :: '/' :: 's' :: ('-' :: 'l' :: (ds₁ ++ '.' :: B)) by
        simp [slPat],
      show [a, b] ++ slPat ds₂ ++ B = a :: b :: '/' :: 's' :: ('-' :: 'l' :: (ds₂ ++ '.' :: B)) by
        simp [slPat],
      isPrefixOf_cons3_false (by decide), isPrefixOf_cons3_false (by decide)]
  · rw [thumbs_data_eq,
      show [a, b, c] ++ slPat ds₁ ++ B =
          a :: b :: c :: '/' :: ('s' :: '-' :: 'l' :: (ds₁ ++ '.' :: B)) by simp [slPat],
      show [a, b, c] ++ slPat ds₂ ++ B =
          a :: b :: c :: '/' :: ('s' :: '-' :: 'l' :: (ds₂ ++ '.' :: B)) by simp [slPat],
      isPrefixOf_cons4_false (by decide), isPrefixOf_cons4_false (by decide)]
  · have hlen : (("/thumbs/").data).length ≤
        ((a :: b :: c :: d :: w') ++ (("/s-l").data)).length := by
      rw [thumbs_data_eq, show ("/s-l").data = ['/', 's', '-', 'l'] by decide]
      simp
    rw [show (a :: b :: c :: d :: w') ++ slPat ds₁ ++ B =
        ((a :: b :: c :: d :: w') ++ (("/s-l").data)) ++ (ds₁ ++ '.' :: B) by simp [slPat],
      show (a :: b :: c :: d :: w') ++ slPat ds₂ ++ B =
        ((a :: b :: c :: d :: w') ++ (("/s-l").data)) ++ (ds₂ ++ '.' :: B) by simp [slPat]]
    rw [Bool.eq_iff_iff, isPrefixOf_iff_take, isPrefixOf_iff_take,
      List.take_append_of_le_length hlen, List.take_append_of_le_length hlen]

theorem isPrefixOf_slPat_transfer_thumbB :
    ∀ (w B ds₁ ds₂ : Str),
      ((("-thumb.").data).isPrefixOf (w ++ slPat ds₁ ++ B)) =
        ((("-thumb.").data).isPrefixOf (w ++ slPat ds₂ ++ B)) := by
  intro w B ds₁ ds₂
  rcases w with - | ⟨a, - | ⟨b, - | ⟨c, w'⟩⟩⟩
  · rw [thumbB_data_eq,
      show ([] : Str) ++ slPat ds₁ ++ B = '/' :: 's' :: '-' :: 'l' :: (ds₁ ++ '.' :: B) by
        simp [slPat],
      show ([] : Str) ++ slPat ds₂ ++ B = '/' :: 's' :: '-' :: 'l' :: (ds₂ ++ '.' :: B) by
        simp [slPat],
      isPrefixOf_cons_false (by decide), isPrefixOf_cons_false (by decide)]
  · rw [thumbB_data_eq,
      show [a] ++ slPat ds₁ ++ B = a :: '/' :: 's' :: '-' :: ('l' :: (ds₁ ++ '.' :: B)) by
        simp [slPat],
      show [a] ++ slPat ds₂ ++ B = a :: '/' :: 's' :: '-' :: ('l' :: (ds₂ ++ '.' :: B)) by
        simp [slPat],
      isPrefixOf_cons2_false (by decide), isPrefixOf_cons2_false (by decide)]
  · rw [thumbB_data_eq,
      show [a, b] ++ slPat ds₁ ++ B =
          a :: b :: '/' :: 's' :: ('-' :: 'l' :: (ds₁ ++ '.' :: B)) by simp [slPat],
      show [a, b] ++ slPat ds₂ ++ B =
          a :: b :: '/' :: 's' :: ('-' :: 'l' :: (ds₂ ++ '.' :: B)) by simp [slPat],
      isPrefixOf_cons3_false (by decide), isPrefixOf_cons3_false (by decide)]
  · have hlen : (("-thumb.").data).length ≤
        ((a :: b :: c :: w') ++ (("/s-l").data)).length := by
      rw [thumbB_data_eq, show ("/s-l").data = ['/', 's', '-', 'l'] by decide]
      simp
    rw [show (a :: b :: c :: w') ++ slPat ds₁ ++ B =
        ((a :: b :: c :: w') ++ (("/s-l").data)) ++ (ds₁ ++ '.' :: B) by simp [slPat],
      show (a :: b :: c :: w') ++ slPat ds₂ ++ B =
        ((a :: b :: c :: w') ++ (("/s-l").data)) ++ (ds₂ ++ '.' :: B) by simp [slPat]]
    rw [Bool.eq_iff_iff, isPrefixOf_iff_take, isPrefixOf_iff_take,
      List.take_append_of_le_length hlen, List.take_append_of_le_length hlen]

theorem containsLit_slPat_transfer_thumbs :
    ∀ (A B ds₁ ds₂ : Str), ds₁.all Char.isDigit = true → ds₂.all Char.isDigit = true →
      containsLit (("/thumbs/").data) (A ++ slPat ds₁ ++ B) =
        containsLit (("/thumbs/").data) (A ++ slPat ds₂ ++ B) := by
  intro A
  induction A with
  | nil =>
    intro B ds₁ ds₂ h1 h2
    rw [List.nil_append, List.nil_append, containsLit_slPat_thumbs _ _ h1,
      containsLit_slPat_thumbs _ _ h2]
  | cons a A ih =>
    intro B ds₁ ds₂ h1 h2
    rw [show (a :: A) ++ slPat ds₁ ++ B = a :: (A ++ slPat ds₁ ++ B) by simp,
      show (a :: A) ++ slPat ds₂ ++ B = a :: (A ++ slPat ds₂ ++ B) by simp]
    show ((("/thumbs/").data).isPrefixOf (a :: (A ++ slPat ds₁ ++ B)) ||
        containsLit (("/thumbs/").data) (A ++ slPat ds₁ ++ B)) = _
    rw [ih B ds₁ ds₂ h1 h2]
    congr 1
    rw [show a :: (A ++ slPat ds₁ ++ B) = (a :: A) ++ slPat ds₁ ++ B by simp,
      show a :: (A ++ slPat ds₂ ++ B) = (a :: A) ++ slPat ds₂ ++ B by simp]
    exact isPrefixOf_slPat_transfer_thumbs (a :: A) B ds₁ ds₂

theorem containsLit_slPat_transfer_thumbB :
    ∀ (A B ds₁ ds₂ : Str), ds₁.all Char.isDigit = true → ds₂.all Char.isDigit = true →
      containsLit (("-thumb.").data) (A ++ slPat ds₁ ++ B) =
        containsLit (("-thumb.").data) (A ++ slPat ds₂ ++ B) := by
  intro A
  induction A with
  | nil =>
    intro B ds₁ ds₂ h1 h2
    rw [List.nil_append, List.nil_append, containsLit_slPat_thumbB _ _ h1,
      containsLit_slPat_thumbB _ _ h2]
  | cons a A ih =>
    intro B ds₁ ds₂ h1 h2
    rw [show (a :: A) ++ slPat ds₁ ++ B = a :: (A ++ slPat ds₁ ++ B) by simp,
      show (a :: A) ++ slPat ds₂ ++ B = a :: (A ++ slPat ds₂ ++ B) by simp]
    show ((("-thumb.").data).isPrefixOf (a :: (A ++ slPat ds₁ ++ B)) ||
        containsLit (("-thumb.").data) (A ++ slPat ds₁ ++ B)) = _
    rw [ih B ds₁ ds₂ h1 h2]
    congr 1
    rw [show a :: (A ++ slPat ds₁ ++ B) = (a :: A) ++ slPat ds₁ ++ B by simp,
      show a :: (A ++ slPat ds₂ ++ B) = (a :: A) ++ slPat ds₂ ++ B by simp]
    exact isPrefixOf_slPat_transfer_thumbB (a :: A) B ds₁ ds₂

theorem containsLit_replSl_thumbs {x : Str}
    (h : containsLit (("/thumbs/").data) x = false) :
    containsLit (("/thumbs/").data) (replSl x) = false := by
  cases hx : replSlAux x with
  | none => simpa [replSl, hx] using h
  | some y =>
    obtain ⟨A, ds, B, hdecomp, hy, hne, hdig⟩ := replSlAux_decomp hx
    rw [show replSl x = y by simp [replSl, hx], hy, slCanon_eq_slPat,
      ← containsLit_slPat_transfer_thumbs A B ds (("1600").data) hdig (by decide),
      ← hdecomp]
    exact h

theorem containsLit_replSl_thumbB {x : Str}
    (h : containsLit (("-thumb.").data) x = false) :
    containsLit (("-thumb.").data) (replSl x) = false := by
  cases hx : replSlAux x with
  | none => simpa [replSl, hx] using h
  | some y =>
    obtain ⟨A, ds, B, hdecomp, hy, hne, hdig⟩ := replSlAux_decomp hx
    rw [show replSl x = y by simp [replSl, hx], hy, slCanon_eq_slPat,
      ← containsLit_slPat_transfer_thumbB A B ds (("1600").data) hdig (by decide),
      ← hdecomp]
    exact h

/-- C5 amended: the resolution-upgrade transform is not idempotent in general,
but it is a no-op on the empty URL and on every URL containing none of the
three rewrite patterns, and it is idempotent on every URL that contains no
`/thumbs/` segment and no `-thumb.` occurrence (size tokens are allowed — this
covers every canonical marketplace image URL). -/
theorem c5_amended_idempotent :
    ∀ u : Str,
      convertToHighRes [] = [] ∧
      (containsLit (("/thumbs/").data) u = false →
        containsLit (("-thumb.").data) u = false →
        convertToHighRes (convertToHighRes u) = convertToHighRes u) ∧
      (containsLit (("/thumbs/").data) u = false → containsSl u = false →
        containsLit (("-thumb.").data) u = false → convertToHighRes u = u) := by
  intro u
  have hnoop : containsLit (("/thumbs/").data) u = false → containsSl u = false →
      containsLit (("-thumb.").data) u = false → convertToHighRes u = u := by
    intro h1 h2 h3
    by_cases hu : u = []
    · simp [convertToHighRes, hu]
    · unfold convertToHighRes
      rw [if_neg hu, replLit_eq_self h1, replSl_eq_self h2, replLit_eq_self h3]
  refine ⟨rfl, ?_, hnoop⟩
  intro h1 h3
  by_cases hu : u = []
  · subst hu
    rfl
  · have hcv : convertToHighRes u = replSl u := by
      unfold convertToHighRes
      rw [if_neg hu, replLit_eq_self h1, replLit_eq_self (containsLit_replSl_thumbB h3)]
    have hne2 : replSl u ≠ [] := replSl_ne_nil hu
    rw [hcv]
    unfold convertToHighRes
    rw [if_neg hne2, replLit_eq_self (containsLit_replSl_thumbs h1), replSl_idem,
      replLit_eq_self (containsLit_replSl_thumbB h3)]

/-- C5 witness: idempotence at a canonical-size URL that the transform does
rewrite, and the no-op case at a pattern-free URL. -/
theorem c5_witness_idem :
    convertToHighRes (convertToHighRes
        (("https://i.ebayimg.com/images/g/x/s-l225.jpg").data)) =
      convertToHighRes (("https://i.ebayimg.com/images/g/x/s-l225.jpg").data) ∧
    convertToHighRes (("https://example.com/img/abc.jpg").data) =
      ("https://example.com/img/abc.jpg").data :=
  ⟨((c5_amended_idempotent (("https://i.ebayimg.com/images/g/x/s-l225.jpg").data)).2.1)
      (by decide) (by decide),
    ((c5_amended_idempotent (("https://example.com/img/abc.jpg").data)).2.2)
      (by decide) (by decide) (by decide)⟩
